import Mathlib

open scoped List

/-!
Verification of `scripts/generate-song-catalog.py` (blind-test repository).

The script builds a ~3000-entry song catalog: it loads raw Spotify CSV rows,
filters them (year, decade, soundtrack keywords, duplicate ids), selects a
per-decade stratified sample with genre-proportional allocation, enriches the
selected rows, merges a curated French list deduplicating by normalized
(title, artist), backfills to 3000, sorts and writes a JSON payload.

This file is a shallow embedding of that script.  Conventions:
  * CSV rows are structures of `String` fields; the numeric audio columns
    (duration, tempo, audio features) are modelled as exact rationals `ℚ`
    (Python parses them with `float`; no claim depends on float precision).
  * Python's process-wide `random.Random(42)` is modelled as an explicit
    state (`Nat`) threaded through every function that consumes randomness.
    `rng.sample(items, k)` is modelled by `sample`: a deterministic draw
    without replacement driven by a linear congruential step.  The claims
    verified here depend only on the properties every such draw has
    (determinism in the state, length, drawing from `items` without
    replacement), not on the Mersenne-Twister bit stream.
  * Python's `round` on the allocation ratio is modelled as exact
    round-half-to-even on the rational `target * size / total`
    (`roundHalfEvenDiv`); `round(x, n)` on floats is modelled by
    round-half-to-even on `ℚ` (`pyRoundTo`).
  * Python dicts keep insertion order; `groups` and `allocations` are
    modelled as association lists in insertion-key order (`alookup` /
    `aupdate` read and write the first matching key).  Python's stable
    `sorted(..., reverse=True)` is modelled by `List.insertionSort` with a
    reflexive "greater or equal on the key" relation, which places an
    element before the first element with a key ≤ its own - the same order
    CPython's stable descending sort produces.
  * `datetime.utcnow()` is modelled as an explicit `now : String` argument.
  * Missing input files are modelled by `Option` arguments to `run`;
    `SystemExit` / `FileNotFoundError` become `Except.error`.
-/

/-- One raw CSV row of the Spotify dataset (string fields as read by
`csv.DictReader`; the numeric audio columns are modelled as rationals). -/
structure Row where
  track_id : String
  track_name : String
  track_artist : String
  track_album_name : String
  track_album_release_date : String
  track_popularity : String
  playlist_genre : String
  playlist_subgenre : String
  playlist_id : String
  playlist_name : String
  duration_ms : ℚ
  tempo : ℚ
  danceability : ℚ
  energy : ℚ
  speechiness : ℚ
  acousticness : ℚ
  instrumentalness : ℚ
  liveness : ℚ
  valence : ℚ
deriving DecidableEq, Repr

/-- A loaded record: Python mutates the row dict, adding `release_year` and
`decade`; we wrap the row instead. -/
structure Record where
  row : Row
  release_year : Nat
  decade : Nat
deriving DecidableEq, Repr

/-- Shorthand for the identifier of a loaded record. -/
def Record.track_id (r : Record) : String := r.row.track_id

/-- One row of the manual French TSV (the `year` column, parsed by Python's
`int`, is modelled as a `Nat`). -/
structure ManualRow where
  year : Nat
  artist : String
  title : String
  album : String
  primary_genre : String
  subgenre : String
  language : String
  youtube_hint : String
deriving DecidableEq, Repr

/-- `DECADE_TARGETS`, in the script's (insertion) order. -/
def DECADE_TARGETS : List (Nat × Nat) :=
  [(1960, 150), (1970, 350), (1980, 400), (1990, 500),
   (2000, 600), (2010, 800), (2020, 100)]

/-- `FILM_KEYWORDS` (with the duplicate "ost" the script also contains). -/
def FILM_KEYWORDS : List String :=
  ["motion picture", "soundtrack", "ost", "original score", "original film",
   "from the film", "from “", "from \"", "anime", "animé",
   "opening theme", "ending theme", "netflix film", "pixar", "marvel",
   "ost", "score version"]

/-- `FRENCH_ARTIST_PATTERNS`. -/
def FRENCH_ARTIST_PATTERNS : List String :=
  ["stromae", "angele", "aya nakamura", "indila", "christine and the queens",
   "orelsan", "soprano", "jul", "nekfeu", "pnl", "maitre gims",
   "maître gims", "gims", "black m", "clara luciani", "louane", "vianney",
   "camelia jordana", "camélia jordana", "mc solaar", "iam", "ntm", "yelle",
   "booba", "keny arkana", "lomepal", "hoshi", "bigflo & oli", "alonzo",
   "kaaris", "sch", "sexion d\x27assaut", "sexion d\x27assaut", "dadju",
   "phoenix", "justice", "caravan palace", "daft punk", "air",
   "david guetta", "madeon", "petit biscuit", "kavinsky", "breakbot",
   "yuksek", "rone", "cassius", "charlotte gainsbourg", "vanessa paradis",
   "indochine", "noir desir", "tryo", "manau", "louise attaque",
   "jacques brel", "serge gainsbourg", "francis cabrel",
   "jean-jacques goldman", "mylene farmer", "zaz", "zazie", "patrick bruel",
   "renaud", "benabar", "bénabar", "raphael", "raphäel", "calogero", "kyo",
   "diam\x27s", "vitaa", "jenifer", "amel bent", "chimene badi",
   "chimène badi", "tal", "bb brunes", "louise attaque", "suprême ntm",
   "suprême n.t.m"]

/-- Lower-case character-wise (Python `str.lower` restricted to the
characters that occur in the data and keyword lists). -/
def lowerChars (l : List Char) : List Char := l.map Char.toLower

/-- Python `str.strip`: drop whitespace at both ends. -/
def pyStrip (l : List Char) : List Char :=
  ((l.dropWhile Char.isWhitespace).reverse.dropWhile Char.isWhitespace).reverse

/-- Python's substring test `needle in hay`, on explicit character lists. -/
def containsSub (needle hay : List Char) : Bool :=
  (List.range (hay.length + 1)).any fun i => needle.isPrefixOf (hay.drop i)

/-- Value of a digit string (`int` on a string `str.isdigit` accepted). -/
def digitsVal (l : List Char) : Nat :=
  l.foldl (fun n c => n * 10 + (c.toNat - 48)) 0

/-- `int(s) if s.isdigit() else None`, for ASCII digit strings. -/
def digitsToNat (l : List Char) : Option Nat :=
  if l ≠ [] ∧ l.all Char.isDigit then some (digitsVal l) else none

/-- `parse_year`: first hyphen-delimited segment of the stripped date string,
accepted only when it is a (nonempty) digit string. -/
def parse_year (dateStr : String) : Option Nat :=
  if dateStr = "" then none
  else digitsToNat ((pyStrip dateStr.data).takeWhile fun c => c ≠ '-')

/-- `is_soundtrack`: keyword substring match on the lower-cased
"title album" concatenation. -/
def is_soundtrack (row : Row) : Bool :=
  let combined :=
    lowerChars (row.track_name ++ " " ++ row.track_album_name).data
  FILM_KEYWORDS.any fun keyword => containsSub keyword.data combined

/-- `detect_language`. -/
def detect_language (row : Row) : String :=
  let artist := lowerChars row.track_artist.data
  if FRENCH_ARTIST_PATTERNS.any (fun pattern => containsSub pattern.data artist)
  then "fr"
  else if row.playlist_genre = "latin" then "es"
  else "en"

/-- `origin_markets`. -/
def origin_markets (language : String) : List String :=
  if language = "fr" then ["FR", "BE", "CA"]
  else if language = "es" then ["ES", "MX", "AR"]
  else ["GLOBAL"]

/-- One step of the deterministic random source (a standard linear
congruential step modulo 2^32) standing in for the script's seeded
`random.Random(42)` state. -/
def lcg (s : Nat) : Nat := (s * 1664525 + 1013904223) % 4294967296

/-- Draw `k` elements without replacement: each step advances the state and
removes the indexed element.  Models `rng.sample(items, k)` (deterministic in
the state, length `min k items.length`, a sub-permutation of `items`). -/
def sampleAux : Nat → Nat → List α → List α × Nat
  | 0, s, _ => ([], s)
  | _ + 1, s, [] => ([], s)
  | k + 1, s, a :: as =>
      let s' := lcg s
      let i := s' % (a :: as).length
      let x := (a :: as).get ⟨i, Nat.mod_lt _ (Nat.succ_pos _)⟩
      let rest := (a :: as).eraseIdx i
      let (picked, s'') := sampleAux k s' rest
      (x :: picked, s'')

/-- `rng.sample(items, k)` with explicit state. -/
def sample (s : Nat) (items : List α) (k : Nat) : List α × Nat :=
  sampleAux k s items

/-- Association-list read with Python's `dict.get(key, 0)` default. -/
def alookup (l : List (String × Nat)) (g : String) : Nat :=
  match l with
  | [] => 0
  | (k, v) :: rest => if k = g then v else alookup rest g

/-- Association-list write: replaces the value at the first matching key,
keeping the key order (Python dict update of an existing key). -/
def aupdate (l : List (String × Nat)) (g : String) (v : Nat) : List (String × Nat) :=
  match l with
  | [] => []
  | (k, w) :: rest => if k = g then (k, v) :: rest else (k, w) :: aupdate rest g v

/-- Append `r` to the group of key `g`, or create the group at the end
(Python `defaultdict(list)` accessed in row order). -/
def insertGroup (gs : List (String × List Record)) (g : String) (r : Record) :
    List (String × List Record) :=
  match gs with
  | [] => [(g, [r])]
  | (k, v) :: rest =>
      if k = g then (k, v ++ [r]) :: rest else (k, v) :: insertGroup rest g r

/-- Group a bucket by `playlist_genre`, keys in first-seen order, each group
in bucket order. -/
def groupByGenre (bucket : List Record) : List (String × List Record) :=
  bucket.foldl (fun gs r => insertGroup gs r.row.playlist_genre r) []

/-- Exact round-half-to-even of the fraction `num / den` (Python `round` on
the allocation ratio, with the float division modelled exactly). -/
def roundHalfEvenDiv (num den : Nat) : Nat :=
  let q := num / den
  let r := num % den
  if 2 * r < den then q
  else if den < 2 * r then q + 1
  else if q % 2 = 0 then q else q + 1

/-- Sum of the allocation values. -/
def sumAlloc (l : List (String × Nat)) : Nat := (l.map Prod.snd).sum

/-- The initial allocation plan: `min(max(1, round(target*size/total)), size)`
per genre, in group order. -/
def initialAlloc (target : Nat) (groups : List (String × List Record)) :
    List (String × Nat) :=
  let total := (groups.map fun gi => gi.2.length).sum
  groups.map fun gi =>
    (gi.1, min (max 1 (roundHalfEvenDiv (target * gi.2.length) total)) gi.2.length)

/-- Sort key of the shortfall reconciliation: (available headroom, group
size). -/
def shortfallKey (alloc : List (String × Nat)) (gi : String × List Record) :
    Nat × Nat :=
  (gi.2.length - alookup alloc gi.1, gi.2.length)

/-- Reflexive "greater or equal" on `Nat × Nat` sort keys (lexicographic). -/
def pairGE (a b : Nat × Nat) : Prop :=
  b.1 < a.1 ∨ (a.1 = b.1 ∧ b.2 ≤ a.2)

instance : DecidableRel pairGE := fun a b => by
  unfold pairGE; infer_instance

/-- Order used by the shortfall reconciliation: descending by
(headroom, size), ties in original group order (Python's stable
`sorted(..., reverse=True)`). -/
def shortfallRel (alloc : List (String × Nat)) (x y : String × List Record) :
    Prop :=
  pairGE (shortfallKey alloc x) (shortfallKey alloc y)

instance (alloc : List (String × Nat)) : DecidableRel (shortfallRel alloc) :=
  fun x y => by unfold shortfallRel; infer_instance

/-- Order used by the overflow trim: descending by allocated value. -/
def trimRel (x y : String × Nat) : Prop := y.2 ≤ x.2

instance : DecidableRel trimRel := fun x y => by unfold trimRel; infer_instance

/-- Shortfall pass: walk the ordered genres, adding `min(diff, headroom)` to
each until the shortfall is gone (the Python `for` loop with `break` /
`continue`). -/
def addShortfall (alloc : List (String × Nat)) :
    List (String × List Record) → Nat → List (String × Nat)
  | _, 0 => alloc
  | [], _ => alloc
  | (g, items) :: rest, diff + 1 =>
      let a := alookup alloc g
      let available := items.length - a
      if available = 0 then addShortfall alloc rest (diff + 1)
      else
        let add := min (diff + 1) available
        addShortfall (aupdate alloc g (a + add)) rest (diff + 1 - add)

/-- Overflow pass: walk the genres in descending allocation order, reducing
each allocation down to (at most) 1 until the excess is gone (the Python
`while` loop inside the `for` loop). -/
def trimOverflow (alloc : List (String × Nat)) :
    List String → Nat → List (String × Nat)
  | _, 0 => alloc
  | [], _ => alloc
  | g :: rest, diff + 1 =>
      let a := alookup alloc g
      let reduce := min (diff + 1) (a - 1)
      trimOverflow (aupdate alloc g (a - reduce)) rest (diff + 1 - reduce)

/-- The allocation plan after reconciliation: initial plan, then the
shortfall pass (over the groups sorted by (headroom, size) descending) or
the overflow pass (over the keys sorted by allocation descending). -/
def computeAllocations (target : Nat) (groups : List (String × List Record)) :
    List (String × Nat) :=
  let alloc0 := initialAlloc target groups
  let current := sumAlloc alloc0
  if current < target then
    addShortfall alloc0 (List.insertionSort (shortfallRel alloc0) groups)
      (target - current)
  else if target < current then
    trimOverflow alloc0
      ((List.insertionSort trimRel alloc0).map Prod.fst) (current - target)
  else alloc0

/-- Draw the allocated count from each group in group order, threading the
random state (whole group when the count covers it, `rng.sample` otherwise). -/
def drawGroups (alloc : List (String × Nat)) :
    Nat → List (String × List Record) → List Record × Nat
  | st, [] => ([], st)
  | st, (g, items) :: rest =>
      let count := alookup alloc g
      if count = 0 then drawGroups alloc st rest
      else if items.length ≤ count then
        let (more, st') := drawGroups alloc st rest
        (items ++ more, st')
      else
        let (picked, st') := sample st items count
        let (more, st'') := drawGroups alloc st' rest
        (picked ++ more, st'')

/-- `stratified_sample(bucket, target)` with explicit random state. -/
def stratified_sample (st : Nat) (bucket : List Record) (target : Nat) :
    List Record × Nat :=
  if bucket.length ≤ target then (bucket, st)
  else
    let groups := groupByGenre bucket
    drawGroups (computeAllocations target groups) st groups

/-- `load_spotify_records` applied to one row: skip seen ids, unparseable or
pre-1960 years, decades outside `DECADE_TARGETS`, and soundtrack rows;
otherwise append the record and remember the id. -/
def loadStep (acc : List Record × List String) (row : Row) :
    List Record × List String :=
  let (records, seen) := acc
  if row.track_id ∈ seen then acc
  else
    match parse_year row.track_album_release_date with
    | none => acc
    | some year =>
      if year < 1960 then acc
      else
        let decade := year / 10 * 10
        if decade < 1960 ∨ decade ∉ DECADE_TARGETS.map Prod.fst then acc
        else if is_soundtrack row then acc
        else (records ++ [{ row := row, release_year := year, decade := decade }],
              seen ++ [row.track_id])

/-- `load_spotify_records` over a list of CSV rows. -/
def load_spotify_records (rows : List Row) : List Record :=
  (rows.foldl loadStep ([], [])).1

/-- The per-decade bucket: records of the decade whose id is not yet used. -/
def bucketOf (records : List Record) (decade : Nat) (used : List String) :
    List Record :=
  records.filter fun r => decide (r.decade = decade ∧ r.track_id ∉ used)

/-- One decade of `select_spotify_subset`: build the unused bucket, sample,
backfill a shortfall from the rest of the bucket, record the used ids, and
keep at most `target` picks. -/
def selectStep (records : List Record)
    (acc : List Record × List String × Nat) (dt : Nat × Nat) :
    List Record × List String × Nat :=
  let (selected, used, st) := acc
  let (decade, target) := dt
  let bucket := bucketOf records decade used
  if bucket = [] then acc
  else
    let (picks0, st1) := stratified_sample st bucket target
    let (picks, st2) :=
      if picks0.length < target then
        let pickIds := picks0.map Record.track_id
        let remaining := bucket.filter fun r => decide (r.track_id ∉ pickIds)
        let needed := target - picks0.length
        if remaining ≠ [] ∧ 0 < needed then
          let (extra, st') := sample st1 remaining (min needed remaining.length)
          (picks0 ++ extra, st')
        else (picks0, st1)
      else (picks0, st1)
    (selected ++ picks.take target, used ++ picks.map Record.track_id, st2)

/-- `select_spotify_subset` with explicit random state. -/
def select_spotify_subset (st : Nat) (records : List Record) :
    List Record × Nat :=
  let (selected, _, st') :=
    DECADE_TARGETS.foldl (selectStep records) ([], [], st)
  (selected, st')

/-- Exact round-half-to-even on a rational (Python's one-argument `round`,
with the float value modelled exactly). -/
def pyRound (x : ℚ) : ℤ :=
  let f := x.floor
  let frac := x - f
  if frac < 1 / 2 then f
  else if 1 / 2 < frac then f + 1
  else if f % 2 = 0 then f else f + 1

/-- Python `round(x, n)`. -/
def pyRoundTo (x : ℚ) (n : Nat) : ℚ :=
  (pyRound (x * 10 ^ n) : ℚ) / 10 ^ n

/-- Python `int` on a (possibly negative) decimal string (rows whose
popularity column is not a decimal integer would raise in Python; they are
not modelled). -/
def pyInt (l : List Char) : ℤ :=
  match l with
  | '-' :: rest => -(digitsVal rest : ℤ)
  | _ => (digitsVal l : ℤ)

/-- Lexicographic "less or equal" on character lists by code points (the
order Python string comparison uses). -/
def lexLE : List Char → List Char → Bool
  | [], _ => true
  | _ :: _, [] => false
  | a :: as, b :: bs => if a = b then lexLE as bs else decide (a < b)

/-- Ascending code-point order on strings. -/
def strLE (a b : String) : Prop := lexLE a.data b.data = true

instance : DecidableRel strLE := fun a b => by unfold strLE; infer_instance

/-- Python `sorted` of a set of strings: deduplicate, then sort ascending by
code points (stable sort of the deduplicated list). -/
def sortedTagSet (l : List String) : List String :=
  List.insertionSort strLE l.dedup

/-- The canonical enriched catalog entry (the dict built by
`spotify_row_to_entry` / `load_manual_french_songs`; `None`-able fields are
`Option`, nested dicts are association lists in key order). -/
structure Entry where
  id : String
  title : String
  artist : String
  album : String
  releaseYear : Nat
  releaseDate : String
  primaryGenre : String
  subGenre : String
  language : String
  originMarkets : List String
  durationSeconds : Option ℚ
  bpm : Option ℚ
  audioFeatures : Option (List (String × ℚ))
  popularity : Option ℤ
  niche : Bool
  source : String
  availableProviders : List String
  searchHints : List (String × String)
  clipStartSeconds : Nat
  clipDurationSeconds : Nat
  languageConfidence : String
  tags : List String
  datasetMeta : Option (List (String × String))
deriving DecidableEq, Repr

/-- `spotify_row_to_entry`. -/
def spotify_row_to_entry (rec : Record) : Entry :=
  let row := rec.row
  let language := detect_language row
  let duration_seconds := pyRoundTo (row.duration_ms / 1000) 2
  let bpm := pyRoundTo row.tempo 3
  let popularity : Option ℤ :=
    if row.track_popularity = "" then none
    else some (pyInt row.track_popularity.data)
  let niche := popularity.isSome && decide (popularity.getD 0 < 45)
  { id := "spotify:" ++ row.track_id
    title := row.track_name
    artist := row.track_artist
    album := row.track_album_name
    releaseYear := rec.release_year
    releaseDate := row.track_album_release_date
    primaryGenre := row.playlist_genre
    subGenre := row.playlist_subgenre
    language := language
    originMarkets := origin_markets language
    durationSeconds := some duration_seconds
    bpm := some bpm
    audioFeatures := some
      [("danceability", row.danceability), ("energy", row.energy),
       ("speechiness", row.speechiness), ("acousticness", row.acousticness),
       ("instrumentalness", row.instrumentalness), ("liveness", row.liveness),
       ("valence", row.valence), ("tempo", bpm)]
    popularity := popularity
    niche := niche
    source := "spotify-tidytuesday-2020-01-21"
    availableProviders := ["spotify", "youtube", "deezer"]
    searchHints :=
      [("youtube", row.track_artist ++ " " ++ row.track_name),
       ("spotify", "spotify:track:" ++ row.track_id),
       ("deezer", row.track_artist ++ " " ++ row.track_name)]
    clipStartSeconds := 30
    clipDurationSeconds := 45
    languageConfidence := "heuristic"
    tags := sortedTagSet [row.playlist_genre, row.playlist_subgenre, language]
    datasetMeta := some
      [("playlistId", row.playlist_id), ("playlistName", row.playlist_name)] }

/-- Character class of the manual-id slug (`[a-z0-9]`). -/
def isSlugChar (c : Char) : Bool :=
  (decide (97 ≤ c.toNat) && decide (c.toNat ≤ 122)) ||
  (decide (48 ≤ c.toNat) && decide (c.toNat ≤ 57))

/-- Drop consecutive repeated hyphens (step two of collapsing a run of
non-slug characters into one hyphen). -/
def squeezeDashes : List Char → List Char
  | [] => []
  | [c] => [c]
  | c :: d :: rest =>
      if c = '-' ∧ d = '-' then squeezeDashes (d :: rest)
      else c :: squeezeDashes (d :: rest)

/-- Replace each maximal run of non-slug characters by a single hyphen
(the `re.sub` in `load_manual_french_songs`): map every non-slug character
to a hyphen, then squeeze repeated hyphens. -/
def slugChars (l : List Char) : List Char :=
  squeezeDashes (l.map fun c => if isSlugChar c then c else '-')

/-- The manual-id slug: lower-case, collapse non-alphanumeric runs to
hyphens, strip hyphens at both ends. -/
def slugify (s : String) : String :=
  let collapsed := slugChars (lowerChars s.data)
  String.mk (((collapsed.dropWhile (· = '-')).reverse.dropWhile (· = '-')).reverse)

/-- `load_manual_french_songs` applied to one TSV row. -/
def manual_row_to_entry (row : ManualRow) : Entry :=
  let slug := slugify (row.artist ++ " " ++ row.title ++ " " ++ toString row.year)
  { id := "manual:" ++ slug
    title := row.title
    artist := row.artist
    album := row.album
    releaseYear := row.year
    releaseDate := toString row.year ++ "-01-01"
    primaryGenre := row.primary_genre
    subGenre := row.subgenre
    language := row.language
    originMarkets := ["FR", "BE", "CA"]
    durationSeconds := none
    bpm := none
    audioFeatures := none
    popularity := none
    niche := false
    source := "manual-french-classics"
    availableProviders := ["youtube", "deezer", "manual"]
    searchHints := [("youtube", row.youtube_hint)]
    clipStartSeconds := 30
    clipDurationSeconds := 45
    languageConfidence := "curated"
    tags := sortedTagSet [row.primary_genre, row.subgenre, "francophone"]
    datasetMeta := none }

/-- `load_manual_french_songs` over the TSV rows. -/
def load_manual_french_songs (rows : List ManualRow) : List Entry :=
  rows.map manual_row_to_entry

/-- The dedup key: lower-cased, stripped (title, artist), as character
lists. -/
def entryKey (e : Entry) : List Char × List Char :=
  (pyStrip (lowerChars e.title.data), pyStrip (lowerChars e.artist.data))

/-- The dedup key computed on a raw record (same strings the entry carries). -/
def recordKey (r : Record) : List Char × List Char :=
  (pyStrip (lowerChars r.row.track_name.data),
   pyStrip (lowerChars r.row.track_artist.data))

/-- One iteration of the manual-merge loop of `main`: drop (and count) a
curated entry whose key is already present, otherwise append the entry and
its key. -/
def mergeStep (acc : List Entry × List (List Char × List Char) × Nat)
    (e : Entry) : List Entry × List (List Char × List Char) × Nat :=
  if entryKey e ∈ acc.2.1 then (acc.1, acc.2.1, acc.2.2 + 1)
  else (acc.1 ++ [e], acc.2.1 ++ [entryKey e], acc.2.2)

/-- The manual-merge loop of `main`. -/
def mergeManual (manual : List Entry)
    (keys : List (List Char × List Char)) :
    List Entry × List (List Char × List Char) × Nat :=
  manual.foldl mergeStep ([], keys, 0)

/-- The backfill step of `main`: records whose key is not yet taken,
shuffled (modelled as a full without-replacement draw), first `needed` of
them enriched. -/
def backfill (st : Nat) (keys : List (List Char × List Char))
    (records : List Record) (needed : Nat) : List Entry × Nat :=
  let remaining := records.filter fun r => decide (recordKey r ∉ keys)
  let (shuffled, st') := sample st remaining remaining.length
  ((shuffled.take needed).map spotify_row_to_entry, st')

/-- Ascending order on (releaseYear, title) used by the final sort. -/
def entryLE (x y : Entry) : Prop :=
  x.releaseYear < y.releaseYear ∨
    (x.releaseYear = y.releaseYear ∧ strLE x.title y.title)

instance : DecidableRel entryLE := fun x y => by unfold entryLE; infer_instance

/-- The intermediate stages of `main`: the enriched selected entries, the
kept curated entries, the skipped-curated count, and the backfill entries. -/
def pipelineParts (rows : List Row) (manual : List ManualRow) :
    List Entry × List Entry × Nat × List Entry :=
  let records := load_spotify_records rows
  let (selectedRecs, st1) := select_spotify_subset 42 records
  let spotifyEntries := selectedRecs.map spotify_row_to_entry
  let keys0 := spotifyEntries.map entryKey
  let (manualKept, keys1, skipped) :=
    mergeManual (load_manual_french_songs manual) keys0
  let combined := spotifyEntries ++ manualKept
  let extra :=
    if combined.length < 3000 then
      (backfill st1 keys1 records (3000 - combined.length)).1
    else []
  (spotifyEntries, manualKept, skipped, extra)

/-- The final sorted song list of `main`. -/
def catalogSongs (rows : List Row) (manual : List ManualRow) : List Entry :=
  let (spotifyEntries, manualKept, _, extra) := pipelineParts rows manual
  List.insertionSort entryLE (spotifyEntries ++ manualKept ++ extra)

/-- `collections.Counter` over a list: counts keyed in first-seen order. -/
def counter [DecidableEq α] (l : List α) : List (α × Nat) :=
  l.foldl
    (fun acc x =>
      if acc.any (fun p => decide (p.1 = x)) then
        acc.map fun p => if p.1 = x then (p.1, p.2 + 1) else p
      else acc ++ [(x, 1)])
    []

/-- The `metadata.breakdown` object. -/
structure Breakdown where
  byDecade : List (Nat × Nat)
  byPrimaryGenre : List (String × Nat)
  byLanguage : List (String × Nat)
deriving DecidableEq, Repr

/-- The `metadata` object. -/
structure Metadata where
  generatedAt : String
  sourceFiles : List (String × String)
  recordCount : Nat
  notes : List String
  breakdown : Breakdown
deriving DecidableEq, Repr

/-- The JSON payload written by `main`. -/
structure Payload where
  metadata : Metadata
  songs : List Entry
deriving DecidableEq, Repr

/-- The notes list, including the skipped-duplicates count. -/
def catalogNotes (skipped : Nat) : List String :=
  ["Base dataset built from the Spotify + TidyTuesday 2020-01-21 playlists (pop, rock, latin, rap, r&b, edm).",
   "Filtered out soundtrack/anime keywords and releases before 1960.",
   "Added 100 manually curated French classics spanning 1960-2021.",
   "Manual duplicates skipped: " ++ toString skipped]

/-- The payload `main` builds, with the wall-clock timestamp as an explicit
`now` argument. -/
def catalogPayload (now : String) (rows : List Row) (manual : List ManualRow) :
    Payload :=
  let (_, _, skipped, _) := pipelineParts rows manual
  let songs := catalogSongs rows manual
  { metadata :=
      { generatedAt := now
        sourceFiles :=
          [("spotify", "apps/server/data/raw/spotify_songs_2020-01-21.csv"),
           ("manualFrench", "apps/server/data/manual-french-songs.tsv")]
        recordCount := songs.length
        notes := catalogNotes skipped
        breakdown :=
          { byDecade := counter (songs.map fun e => e.releaseYear / 10 * 10)
            byPrimaryGenre := counter (songs.map Entry.primaryGenre)
            byLanguage := counter (songs.map Entry.language) } }
    songs := songs }

/-- The `SystemExit` message for a missing primary dataset. -/
def missingDatasetMsg : String :=
  "Missing dataset: apps/server/data/raw/spotify_songs_2020-01-21.csv"

/-- The `FileNotFoundError` for a missing manual TSV. -/
def missingManualMsg : String :=
  "No such file or directory: apps/server/data/manual-french-songs.tsv"

/-- `main`: abort when an input file is absent (modelled by `none`),
otherwise produce the payload. -/
def run (raw : Option (List Row)) (manual : Option (List ManualRow))
    (now : String) : Except String Payload :=
  match raw with
  | none => Except.error missingDatasetMsg
  | some rows =>
    match manual with
    | none => Except.error missingManualMsg
    | some manualRows => Except.ok (catalogPayload now rows manualRows)

/-- Modelled from the spec (§4.2 reconciliation): distribute the shortfall
across the ordered genres "one unit at a time, never exceeding a genre's
size" - one unit is granted per step to the current genre while it has
headroom; a genre without headroom is passed over.  Used as the reference
the code's block-wise shortfall pass is compared against (claim C6). -/
def specUnitDistribute :
    List (String × Nat) → List (String × List Record) → Nat →
    List (String × Nat)
  | alloc, _, 0 => alloc
  | alloc, [], _ => alloc
  | alloc, (g, items) :: rest, d + 1 =>
      if alookup alloc g < items.length then
        specUnitDistribute (aupdate alloc g (alookup alloc g + 1))
          ((g, items) :: rest) d
      else specUnitDistribute alloc rest (d + 1)
termination_by _ l d => (d, l.length)
decreasing_by
  · exact Prod.Lex.left _ _ (Nat.lt_succ_self _)
  · exact Prod.Lex.right _ (by simp)

/-- Fixture: a raw CSV row with the given id, title, artist, album, release
date and genre (remaining columns fixed). -/
def mkRow (id name artist album date genre pop : String) : Row :=
  { track_id := id, track_name := name, track_artist := artist,
    track_album_name := album, track_album_release_date := date,
    track_popularity := pop, playlist_genre := genre,
    playlist_subgenre := "sub", playlist_id := "p", playlist_name := "pn",
    duration_ms := 200000, tempo := 120, danceability := 0, energy := 0,
    speechiness := 0, acousticness := 0, instrumentalness := 0,
    liveness := 0, valence := 0 }

/-- Fixture: a loaded 2010s record with the given id and genre. -/
def mkRec (id genre : String) : Record :=
  { row := mkRow id ("n" ++ id) ("a" ++ id) "al" "2015-01-01" genre "50",
    release_year := 2015, decade := 2010 }

/-- Fixture for C1: a bucket of three records in three distinct genres. -/
def bucketThreeGenres : List Record :=
  [mkRec "1" "a", mkRec "2" "b", mkRec "3" "c"]

/-- Fixture for C6: nine records, three genres of three (initial allocation
1+1+1 = 3 falls short of target 4). -/
def bucketNine : List Record :=
  [mkRec "1" "a", mkRec "2" "a", mkRec "3" "a",
   mkRec "4" "b", mkRec "5" "b", mkRec "6" "b",
   mkRec "7" "c", mkRec "8" "c", mkRec "9" "c"]

/-- Fixture for C3: two raw rows with distinct track ids but the same
normalized (title, artist) key. -/
def duplicateKeyRows : List Row :=
  [mkRow "a" "Same" "Art" "Al" "2015-06-01" "pop" "50",
   mkRow "b" "Same" "Art" "Al2" "2016-06-01" "pop" "50"]

/-- Title column of the C3 backfill fixture: rows 14 and 29 share the title
"dup" (hence one normalized key); all other rows have distinct titles. -/
def titleDup (i : Nat) : String :=
  if i = 14 ∨ i = 29 then "dup" else "t" ++ toString i

/-- Fixture for C3: 102 rows, all in the 2020s bucket whose quota is 100.
The fixed-seed sampler selects 100 of them, leaving rows 14 and 29 - which
share one normalized (title, artist) key that no selected row has - so the
backfill pass draws and appends both in the same pass. -/
def backfillDupRows : List Row :=
  (List.range 102).map fun i =>
    mkRow ("i" ++ toString i) (titleDup i) "art" "al" "2020-06-01" "pop" "50"

/-- Fixture for C7: a raw row released in 1957. -/
def row1957 : Row := mkRow "x" "Old Song" "Old Artist" "Old" "1957-03-01" "pop" "50"

/-- Fixture for C10: a raw row whose title contains "ost" inside "Ghost". -/
def ghostRow : Row := mkRow "g" "Ghost" "Artist" "Album" "2015-06-01" "pop" "50"

/-- Fixture for C9: a record whose popularity column is empty. -/
def emptyPopularityRec : Record :=
  { row := mkRow "e" "Track" "Artist" "Album" "2015-06-01" "pop" "",
    release_year := 2015, decade := 2010 }

/-! ## Lemmas about loading -/

/-- A row reachable in the loaded records either was already in the
accumulator or passed every guard of `loadStep`. -/
lemma mem_foldl_loadStep (rows : List Row) :
    ∀ acc r, r ∈ ((rows.foldl loadStep acc).1.map Record.row) →
      r ∈ acc.1.map Record.row ∨
        ∃ y, parse_year r.track_album_release_date = some y ∧ ¬ y < 1960 ∧
          ¬(y / 10 * 10 < 1960 ∨ y / 10 * 10 ∉ DECADE_TARGETS.map Prod.fst) ∧
          is_soundtrack r = false := by
  induction rows with
  | nil => intro acc r h; exact Or.inl h
  | cons row rows ih =>
    intro acc r h
    rcases ih (loadStep acc row) r h with h' | h'
    · obtain ⟨records, seen⟩ := acc
      unfold loadStep at h'
      dsimp only at h'
      split at h'
      · exact Or.inl h'
      · split at h'
        · exact Or.inl h'
        · rename_i year hyear
          split at h'
          · exact Or.inl h'
          · split at h'
            · exact Or.inl h'
            · split at h'
              · exact Or.inl h'
              · rename_i hseen hge hdec hst
                rw [List.map_append, List.mem_append] at h'
                rcases h' with h' | h'
                · exact Or.inl h'
                · simp only [List.map_cons, List.map_nil, List.mem_singleton] at h'
                  subst h'
                  exact Or.inr ⟨year, hyear, hge, hdec, Bool.of_not_eq_true hst⟩
    · exact Or.inr h'

/-! ## C7, C10: loading filters -/

/-- C7: the release year is parsed as the first hyphen-delimited numeric
segment of the date string, and rows with an unparseable year or a year
before 1960 are never loaded; in particular `"1957-03-01"` parses to 1957
(which is pre-1960). -/
theorem C7_year_filter :
    (∀ (rows : List Row) (r : Row),
      (parse_year r.track_album_release_date = none ∨
        ∃ y, parse_year r.track_album_release_date = some y ∧ y < 1960) →
      r ∉ (load_spotify_records rows).map Record.row) ∧
    parse_year "1957-03-01" = some 1957 := by
  constructor
  · intro rows r hbad hmem
    rcases mem_foldl_loadStep rows ([], []) r hmem with h | ⟨y, hy, hge, _, _⟩
    · simp at h
    · rcases hbad with hnone | ⟨y', hy', hlt⟩
      · rw [hnone] at hy; exact Option.noConfusion hy
      · rw [hy'] at hy
        exact hge (Option.some_injective _ hy ▸ hlt)
  · decide

/-- C7 witness: the fixture row dated `"1957-03-01"` is excluded. -/
theorem C7_year_filter_witness :
    row1957 ∉ (load_spotify_records [row1957]).map Record.row :=
  C7_year_filter.1 [row1957] row1957 (Or.inr ⟨1957, by decide, by decide⟩)

/-- C10: any row whose lower-cased title+album concatenation contains the
letter sequence "ost" anywhere is classified as soundtrack content and
excluded from loading, regardless of whether it is actually a soundtrack. -/
theorem C10_ost_substring :
    ∀ (rows : List Row) (r : Row),
      containsSub "ost".data
        (lowerChars (r.track_name ++ " " ++ r.track_album_name).data) = true →
      is_soundtrack r = true ∧
        r ∉ (load_spotify_records rows).map Record.row := by
  intro rows r h
  have hsound : is_soundtrack r = true := by
    unfold is_soundtrack
    exact List.any_eq_true.2 ⟨"ost", by decide, h⟩
  refine ⟨hsound, fun hmem => ?_⟩
  rcases mem_foldl_loadStep rows ([], []) r hmem with h' | ⟨_, _, _, _, hst⟩
  · simp at h'
  · rw [hsound] at hst; exact Bool.noConfusion hst

/-- C10 witness: the fixture row titled "Ghost" is flagged and excluded. -/
theorem C10_ost_substring_witness :
    is_soundtrack ghostRow = true ∧
      ghostRow ∉ (load_spotify_records [ghostRow]).map Record.row :=
  C10_ost_substring [ghostRow] ghostRow (by decide)

/-! ## C8: missing input files -/

/-- C8: a missing primary dataset aborts the run with the `SystemExit`
error (independently of every other input, so before any processing), and a
missing curated file aborts with the `FileNotFoundError`; in both cases no
payload is produced. -/
theorem C8_missing_input :
    ∀ (manual : Option (List ManualRow)) (now : String) (rows : List Row)
      (now' : String),
      run none manual now = Except.error missingDatasetMsg ∧
      run (some rows) none now' = Except.error missingManualMsg :=
  fun _ _ _ _ => ⟨rfl, rfl⟩

/-! ## C9: empty popularity -/

/-- C9: a row with an empty popularity column is enriched with `popularity
= None` and `niche = False` (the `< 45` threshold only applies when a
popularity value is present). -/
theorem C9_empty_popularity :
    ∀ rec : Record, rec.row.track_popularity = "" →
      (spotify_row_to_entry rec).popularity = none ∧
        (spotify_row_to_entry rec).niche = false := by
  intro rec h
  unfold spotify_row_to_entry
  simp [h]

/-- C9 witness: the fixture record with empty popularity. -/
theorem C9_empty_popularity_witness :
    (spotify_row_to_entry emptyPopularityRec).popularity = none ∧
      (spotify_row_to_entry emptyPopularityRec).niche = false :=
  C9_empty_popularity emptyPopularityRec rfl

/-! ## C2: determinism -/

/-- C2 counterexample: with identical inputs and the same fixed seed, two
runs at different wall-clock times produce different payloads (the
`generatedAt` timestamp is embedded in the output), so the output catalog
is not byte-identical across runs. -/
theorem C2_counterexample :
    catalogPayload "2024-01-01T00:00:00Z" [] [] ≠
      catalogPayload "2024-01-02T00:00:00Z" [] [] := by decide

/-- C2 amended: everything in the payload except the `generatedAt`
timestamp is a deterministic function of the inputs and the fixed seed -
the song list and all other metadata fields are identical across runs. -/
theorem C2_amended_determinism :
    ∀ (now₁ now₂ : String) (rows : List Row) (manual : List ManualRow),
      (catalogPayload now₁ rows manual).songs =
        (catalogPayload now₂ rows manual).songs ∧
      (catalogPayload now₁ rows manual).metadata.sourceFiles =
        (catalogPayload now₂ rows manual).metadata.sourceFiles ∧
      (catalogPayload now₁ rows manual).metadata.recordCount =
        (catalogPayload now₂ rows manual).metadata.recordCount ∧
      (catalogPayload now₁ rows manual).metadata.notes =
        (catalogPayload now₂ rows manual).metadata.notes ∧
      (catalogPayload now₁ rows manual).metadata.breakdown =
        (catalogPayload now₂ rows manual).metadata.breakdown := by
  intro now₁ now₂ rows manual
  rcases h : pipelineParts rows manual with ⟨a, b, c, d⟩
  simp only [catalogPayload, h]
  exact ⟨trivial, trivial, trivial, trivial, trivial⟩

/-! ## Association-list lemmas -/

lemma alookup_cons (k : String) (v : Nat) (rest : List (String × Nat))
    (g : String) :
    alookup ((k, v) :: rest) g = if k = g then v else alookup rest g := rfl

lemma aupdate_keys (g : String) (v : Nat) :
    ∀ l : List (String × Nat), (aupdate l g v).map Prod.fst = l.map Prod.fst := by
  intro l
  induction l with
  | nil => rfl
  | cons kw rest ih =>
    obtain ⟨k, w⟩ := kw
    unfold aupdate
    by_cases h : k = g <;> simp [h, ih]

lemma alookup_aupdate_self (g : String) (v : Nat) :
    ∀ l : List (String × Nat), g ∈ l.map Prod.fst →
      alookup (aupdate l g v) g = v := by
  intro l
  induction l with
  | nil => intro h; simp at h
  | cons kw rest ih =>
    obtain ⟨k, w⟩ := kw
    intro hmem
    unfold aupdate
    by_cases h : k = g
    · simp [alookup, h]
    · simp only [if_neg h]
      unfold alookup
      rw [if_neg h]
      refine ih ?_
      simp only [List.map_cons, List.mem_cons] at hmem
      rcases hmem with h' | h'
      · exact absurd h'.symm h
      · exact h'

lemma alookup_aupdate_ne (g g' : String) (v : Nat) (hne : g ≠ g') :
    ∀ l : List (String × Nat), alookup (aupdate l g v) g' = alookup l g' := by
  intro l
  induction l with
  | nil => rfl
  | cons kw rest ih =>
    obtain ⟨k, w⟩ := kw
    unfold aupdate
    by_cases h : k = g
    · subst h
      rw [if_pos rfl]
      unfold alookup
      rw [if_neg hne, if_neg hne]
    · simp only [if_neg h]
      unfold alookup
      by_cases h' : k = g'
      · simp [h']
      · rw [if_neg h', if_neg h', ih]

lemma sumAlloc_aupdate (g : String) (v : Nat) :
    ∀ l : List (String × Nat), g ∈ l.map Prod.fst →
      sumAlloc (aupdate l g v) + alookup l g = sumAlloc l + v := by
  intro l
  induction l with
  | nil => intro h; simp at h
  | cons kw rest ih =>
    obtain ⟨k, w⟩ := kw
    intro hmem
    unfold aupdate alookup
    by_cases h : k = g
    · simp only [if_pos h]
      simp [sumAlloc]
      omega
    · simp only [if_neg h]
      have hrest : g ∈ rest.map Prod.fst := by
        simp only [List.map_cons, List.mem_cons] at hmem
        rcases hmem with h' | h'
        · exact absurd h'.symm h
        · exact h'
      have := ih hrest
      simp [sumAlloc] at this ⊢
      omega

lemma alookup_of_mem_nodup :
    ∀ (l : List (String × Nat)) (g : String) (v : Nat),
      (g, v) ∈ l → (l.map Prod.fst).Nodup → alookup l g = v := by
  intro l
  induction l with
  | nil => intro g v h; simp at h
  | cons kw rest ih =>
    obtain ⟨k, w⟩ := kw
    intro g v hmem hnd
    simp only [List.map_cons, List.nodup_cons] at hnd
    unfold alookup
    rcases List.mem_cons.1 hmem with h | h
    · injection h with h1 h2
      simp [h1, h2]
    · by_cases hk : k = g
      · exfalso
        apply hnd.1
        rw [hk]
        exact List.mem_map.2 ⟨(g, v), h, rfl⟩
      · rw [if_neg hk]
        exact ih g v h hnd.2

lemma aupdate_not_mem (g : String) (v : Nat) :
    ∀ l : List (String × Nat), g ∉ l.map Prod.fst → aupdate l g v = l := by
  intro l
  induction l with
  | nil => intro _; rfl
  | cons kw rest ih =>
    obtain ⟨k, w⟩ := kw
    intro h
    simp only [List.map_cons, List.mem_cons, not_or] at h
    unfold aupdate
    rw [if_neg (fun he => h.1 he.symm), ih h.2]

lemma alookup_not_mem (g : String) :
    ∀ l : List (String × Nat), g ∉ l.map Prod.fst → alookup l g = 0 := by
  intro l
  induction l with
  | nil => intro _; rfl
  | cons kw rest ih =>
    obtain ⟨k, w⟩ := kw
    intro h
    simp only [List.map_cons, List.mem_cons, not_or] at h
    unfold alookup
    rw [if_neg (fun he => h.1 he.symm), ih h.2]

lemma alookup_le_sumAlloc (g : String) :
    ∀ l : List (String × Nat), alookup l g ≤ sumAlloc l := by
  intro l
  induction l with
  | nil => simp [alookup, sumAlloc]
  | cons kw rest ih =>
    obtain ⟨k, w⟩ := kw
    unfold alookup
    by_cases h : k = g
    · simp [h, sumAlloc]
    · rw [if_neg h]
      simp only [sumAlloc, List.map_cons, List.sum_cons]
      exact le_add_of_nonneg_of_le (Nat.zero_le _) ih

lemma length_le_sumAlloc :
    ∀ l : List (String × Nat), (∀ p ∈ l, 1 ≤ p.2) → l.length ≤ sumAlloc l := by
  intro l
  induction l with
  | nil => intro _; simp [sumAlloc]
  | cons kw rest ih =>
    intro h
    simp only [sumAlloc, List.map_cons, List.sum_cons, List.length_cons]
    have h1 := h kw (List.mem_cons_self _ _)
    have h2 := ih fun p hp => h p (List.mem_cons_of_mem _ hp)
    unfold sumAlloc at h2
    omega

lemma sum_sub_one :
    ∀ l : List (String × Nat), (∀ p ∈ l, 1 ≤ p.2) →
      (l.map fun p => p.2 - 1).sum + l.length = sumAlloc l := by
  intro l
  induction l with
  | nil => intro _; simp [sumAlloc]
  | cons kw rest ih =>
    intro h
    have h1 := h kw (List.mem_cons_self _ _)
    have h2 := ih fun p hp => h p (List.mem_cons_of_mem _ hp)
    simp only [sumAlloc, List.map_cons, List.sum_cons, List.length_cons] at h2 ⊢
    omega

/-! ## Grouping lemmas -/

lemma insertGroup_keys (g : String) (r : Record) :
    ∀ gs : List (String × List Record),
      (insertGroup gs g r).map Prod.fst =
        if g ∈ gs.map Prod.fst then gs.map Prod.fst
        else gs.map Prod.fst ++ [g] := by
  intro gs
  induction gs with
  | nil => simp [insertGroup]
  | cons kv rest ih =>
    obtain ⟨k, v⟩ := kv
    unfold insertGroup
    by_cases h : k = g
    · simp [h, List.mem_cons]
    · rw [if_neg h]
      simp only [List.map_cons]
      rw [ih]
      by_cases hm : g ∈ rest.map Prod.fst
      · rw [if_pos hm, if_pos (by simp [List.mem_cons, hm])]
      · have hout : g ∉ k :: rest.map Prod.fst := by
          simp only [List.mem_cons, not_or]
          exact ⟨fun he => h he.symm, hm⟩
        rw [if_neg hm, if_neg hout]
        simp

lemma insertGroup_nodup_keys (g : String) (r : Record)
    (gs : List (String × List Record)) (h : (gs.map Prod.fst).Nodup) :
    ((insertGroup gs g r).map Prod.fst).Nodup := by
  rw [insertGroup_keys]
  split
  · exact h
  · rename_i hnm
    simp [List.nodup_append, h, hnm]

lemma insertGroup_flatten (g : String) (r : Record) :
    ∀ gs : List (String × List Record),
      ((insertGroup gs g r).map Prod.snd).flatten ~
        ((gs.map Prod.snd).flatten) ++ [r] := by
  intro gs
  induction gs with
  | nil => simp [insertGroup]
  | cons kv rest ih =>
    obtain ⟨k, v⟩ := kv
    unfold insertGroup
    by_cases h : k = g
    · simp only [if_pos h, List.map_cons, List.flatten_cons]
      calc (v ++ [r]) ++ (rest.map Prod.snd).flatten
          ~ v ++ ([r] ++ (rest.map Prod.snd).flatten) := by
            simp [List.append_assoc]
        _ ~ v ++ ((rest.map Prod.snd).flatten ++ [r]) :=
            List.Perm.append_left v (List.perm_append_comm)
        _ ~ (v ++ (rest.map Prod.snd).flatten) ++ [r] := by
            simp [List.append_assoc]
    · simp only [if_neg h, List.map_cons, List.flatten_cons]
      calc v ++ ((insertGroup rest g r).map Prod.snd).flatten
          ~ v ++ ((rest.map Prod.snd).flatten ++ [r]) :=
            List.Perm.append_left v ih
        _ ~ (v ++ (rest.map Prod.snd).flatten) ++ [r] := by
            simp [List.append_assoc]

lemma insertGroup_nonempty (g : String) (r : Record)
    (gs : List (String × List Record)) (h : ∀ gi ∈ gs, gi.2 ≠ []) :
    ∀ gi ∈ insertGroup gs g r, gi.2 ≠ [] := by
  induction gs with
  | nil =>
    intro gi hgi
    unfold insertGroup at hgi
    simp only [List.mem_singleton] at hgi
    subst hgi; simp
  | cons kv rest ih =>
    obtain ⟨k, v⟩ := kv
    intro gi hgi
    unfold insertGroup at hgi
    split at hgi
    · rcases List.mem_cons.1 hgi with h' | h'
      · subst h'; simp
      · exact h gi (List.mem_cons_of_mem _ h')
    · rcases List.mem_cons.1 hgi with h' | h'
      · subst h'; exact h (k, v) (List.mem_cons_self _ _)
      · exact ih (fun gj hj => h gj (List.mem_cons_of_mem _ hj)) gi h'

lemma groupByGenre_aux_nodup (bucket : List Record) :
    ∀ gs, ((gs.map Prod.fst).Nodup) →
      (((bucket.foldl (fun gs r => insertGroup gs r.row.playlist_genre r) gs).map
        Prod.fst).Nodup) := by
  induction bucket with
  | nil => intro gs h; exact h
  | cons r rest ih =>
    intro gs h
    exact ih _ (insertGroup_nodup_keys _ _ _ h)

lemma groupByGenre_nodup_keys (bucket : List Record) :
    ((groupByGenre bucket).map Prod.fst).Nodup :=
  groupByGenre_aux_nodup bucket [] (by simp)

lemma groupByGenre_aux_flatten (bucket : List Record) :
    ∀ gs,
      (((bucket.foldl (fun gs r => insertGroup gs r.row.playlist_genre r) gs).map
        Prod.snd).flatten) ~ ((gs.map Prod.snd).flatten) ++ bucket := by
  induction bucket with
  | nil => intro gs; simp
  | cons r rest ih =>
    intro gs
    calc ((((r :: rest).foldl (fun gs r => insertGroup gs r.row.playlist_genre r) gs)).map
          Prod.snd).flatten
        ~ (((insertGroup gs r.row.playlist_genre r).map Prod.snd).flatten) ++ rest :=
          ih _
      _ ~ (((gs.map Prod.snd).flatten) ++ [r]) ++ rest :=
          List.Perm.append_right rest (insertGroup_flatten _ _ _)
      _ ~ ((gs.map Prod.snd).flatten) ++ (r :: rest) := by
          simp [List.append_assoc]

lemma groupByGenre_flatten (bucket : List Record) :
    (((groupByGenre bucket).map Prod.snd).flatten) ~ bucket := by
  have := groupByGenre_aux_flatten bucket []
  simpa using this

lemma groupByGenre_nonempty (bucket : List Record) :
    ∀ gi ∈ groupByGenre bucket, gi.2 ≠ [] := by
  have : ∀ (b : List Record) (gs), (∀ gi ∈ gs, gi.2 ≠ []) →
      ∀ gi ∈ b.foldl (fun gs r => insertGroup gs r.row.playlist_genre r) gs,
        gi.2 ≠ [] := by
    intro b
    induction b with
    | nil => intro gs h; exact h
    | cons r rest ih =>
      intro gs h
      exact ih _ (insertGroup_nonempty _ _ _ h)
  exact this bucket [] (by simp)

lemma groupByGenre_sum_lengths (bucket : List Record) :
    ((groupByGenre bucket).map fun gi => gi.2.length).sum = bucket.length := by
  have h := (groupByGenre_flatten bucket).length_eq
  rw [List.length_flatten] at h
  simpa [Function.comp] using h

/-! ## Shortfall-pass lemmas -/

lemma sum_map_sub (f g : α → Nat) :
    ∀ l : List α, (∀ x ∈ l, g x ≤ f x) →
      (l.map fun x => f x - g x).sum + (l.map g).sum = (l.map f).sum := by
  intro l
  induction l with
  | nil => intro _; simp
  | cons x rest ih =>
    intro h
    have h1 := h x (List.mem_cons_self _ _)
    have h2 := ih fun y hy => h y (List.mem_cons_of_mem _ hy)
    simp only [List.map_cons, List.sum_cons]
    omega

lemma sum_alookup_eq_sumAlloc :
    ∀ (groups : List (String × List Record)) (alloc : List (String × Nat)),
      alloc.map Prod.fst = groups.map Prod.fst →
      (groups.map Prod.fst).Nodup →
      (groups.map fun gi => alookup alloc gi.1).sum = sumAlloc alloc := by
  intro groups
  induction groups with
  | nil =>
    intro alloc h _
    simp only [List.map_nil] at h
    rw [List.map_eq_nil_iff] at h
    subst h
    rfl
  | cons gi rest ih =>
    intro alloc h hnd
    cases alloc with
    | nil => simp at h
    | cons p alloc' =>
      obtain ⟨k, v⟩ := p
      obtain ⟨gk, gitems⟩ := gi
      simp only [List.map_cons] at h
      injection h with hk hrest
      subst hk
      simp only [List.map_cons, List.nodup_cons] at hnd
      have hne : ∀ gj ∈ rest, (gj : String × List Record).1 ≠ k := by
        intro gj hgj he
        exact hnd.1 (List.mem_map.2 ⟨gj, hgj, he⟩)
      simp only [List.map_cons, List.sum_cons, sumAlloc]
      have hcong :
          rest.map (fun gi => alookup ((k, v) :: alloc') gi.1) =
            rest.map fun gi => alookup alloc' gi.1 := by
        apply List.map_congr_left
        intro gj hgj
        rw [alookup_cons, if_neg fun he => hne gj hgj he.symm]
      rw [show alookup ((k, v) :: alloc') k = v by rw [alookup_cons, if_pos rfl]]
      rw [hcong, ih alloc' hrest hnd.2]
      simp [sumAlloc]

lemma addShortfall_keys :
    ∀ (ordered : List (String × List Record)) (alloc : List (String × Nat))
      (diff : Nat),
      (addShortfall alloc ordered diff).map Prod.fst = alloc.map Prod.fst := by
  intro ordered
  induction ordered with
  | nil => intro alloc diff; cases diff <;> rfl
  | cons gi rest ih =>
    intro alloc diff
    obtain ⟨g, items⟩ := gi
    cases diff with
    | zero => rfl
    | succ d =>
      show (addShortfall alloc ((g, items) :: rest) (d + 1)).map Prod.fst = _
      unfold addShortfall
      simp only []
      split
      · exact ih alloc (d + 1)
      · rw [ih, aupdate_keys]

lemma addShortfall_sum :
    ∀ (ordered : List (String × List Record)) (alloc : List (String × Nat))
      (diff : Nat),
      (ordered.map Prod.fst).Nodup →
      (∀ gi ∈ ordered, gi.1 ∈ alloc.map Prod.fst) →
      (∀ gi ∈ ordered, alookup alloc gi.1 ≤ gi.2.length) →
      diff ≤ ((ordered.map fun gi => gi.2.length - alookup alloc gi.1).sum) →
      sumAlloc (addShortfall alloc ordered diff) = sumAlloc alloc + diff := by
  intro ordered
  induction ordered with
  | nil =>
    intro alloc diff _ _ _ hbound
    simp only [List.map_nil, List.sum_nil, Nat.le_zero] at hbound
    subst hbound
    rfl
  | cons gi rest ih =>
    intro alloc diff hnd hmem hle hbound
    obtain ⟨g, items⟩ := gi
    cases diff with
    | zero => rfl
    | succ d =>
      have hg : g ∈ alloc.map Prod.fst := hmem (g, items) (List.mem_cons_self _ _)
      have hgrest : g ∉ rest.map Prod.fst := by
        simp only [List.map_cons, List.nodup_cons] at hnd
        exact hnd.1
      have hndrest : (rest.map Prod.fst).Nodup := by
        simp only [List.map_cons, List.nodup_cons] at hnd
        exact hnd.2
      have hnerest : ∀ gj ∈ rest, (gj : String × List Record).1 ≠ g := by
        intro gj hgj he
        exact hgrest (List.mem_map.2 ⟨gj, hgj, he⟩)
      simp only [List.map_cons, List.sum_cons] at hbound
      show sumAlloc (addShortfall alloc ((g, items) :: rest) (d + 1)) = _
      unfold addShortfall
      simp only []
      split
      · rename_i hav
        have : d + 1 ≤ ((rest.map fun gi => gi.2.length - alookup alloc gi.1).sum) := by
          omega
        exact ih alloc (d + 1) hndrest
          (fun gj hgj => hmem gj (List.mem_cons_of_mem _ hgj))
          (fun gj hgj => hle gj (List.mem_cons_of_mem _ hgj)) this
      · rename_i hav
        set a := alookup alloc g with ha
        set add := min (d + 1) (items.length - a) with hadd
        have haddle : add ≤ d + 1 := Nat.min_le_left _ _
        have havle : add ≤ items.length - a := Nat.min_le_right _ _
        have hupd : sumAlloc (aupdate alloc g (a + add)) + a = sumAlloc alloc + (a + add) :=
          sumAlloc_aupdate g (a + add) alloc hg
        have hstep : ∀ gj ∈ rest,
            alookup (aupdate alloc g (a + add)) gj.1 = alookup alloc gj.1 :=
          fun gj hgj => alookup_aupdate_ne g gj.1 (a + add)
            (fun he => hnerest gj hgj he.symm) alloc
        have hcong :
            (rest.map fun gi => gi.2.length - alookup (aupdate alloc g (a + add)) gi.1) =
              rest.map fun gi => gi.2.length - alookup alloc gi.1 := by
          apply List.map_congr_left
          intro gj hgj
          rw [hstep gj hgj]
        have := ih (aupdate alloc g (a + add)) (d + 1 - add) hndrest
          (fun gj hgj => by
            rw [aupdate_keys]
            exact hmem gj (List.mem_cons_of_mem _ hgj))
          (fun gj hgj => by
            rw [hstep gj hgj]
            exact hle gj (List.mem_cons_of_mem _ hgj))
          (by rw [hcong]; omega)
        rw [this]
        omega

lemma addShortfall_bounds :
    ∀ (ordered : List (String × List Record)) (alloc : List (String × Nat))
      (diff : Nat),
      (ordered.map Prod.fst).Nodup →
      (∀ gi ∈ ordered, gi.1 ∈ alloc.map Prod.fst) →
      (∀ gi ∈ ordered, alookup alloc gi.1 ≤ gi.2.length) →
      (∀ g', alookup alloc g' ≤ alookup (addShortfall alloc ordered diff) g') ∧
      (∀ gi ∈ ordered,
        alookup (addShortfall alloc ordered diff) gi.1 ≤ gi.2.length) ∧
      (∀ g', g' ∉ ordered.map Prod.fst →
        alookup (addShortfall alloc ordered diff) g' = alookup alloc g') := by
  intro ordered
  induction ordered with
  | nil =>
    intro alloc diff _ _ _
    refine ⟨fun g' => ?_, fun gi hgi => absurd hgi (by simp), fun g' _ => ?_⟩
    · cases diff <;> exact le_refl _
    · cases diff <;> rfl
  | cons gi rest ih =>
    intro alloc diff hnd hmem hle
    obtain ⟨g, items⟩ := gi
    cases diff with
    | zero =>
      exact ⟨fun g' => le_refl _, fun gj hgj => hle gj hgj, fun g' _ => rfl⟩
    | succ d =>
      have hg : g ∈ alloc.map Prod.fst := hmem (g, items) (List.mem_cons_self _ _)
      have hgrest : g ∉ rest.map Prod.fst := by
        simp only [List.map_cons, List.nodup_cons] at hnd
        exact hnd.1
      have hndrest : (rest.map Prod.fst).Nodup := by
        simp only [List.map_cons, List.nodup_cons] at hnd
        exact hnd.2
      have hnerest : ∀ gj ∈ rest, (gj : String × List Record).1 ≠ g := by
        intro gj hgj he
        exact hgrest (List.mem_map.2 ⟨gj, hgj, he⟩)
      show (∀ g', alookup alloc g' ≤
              alookup (addShortfall alloc ((g, items) :: rest) (d + 1)) g') ∧ _ ∧ _
      unfold addShortfall
      simp only []
      split
      · rename_i hav
        have ha : alookup alloc g = items.length := by
          have := hle (g, items) (List.mem_cons_self _ _)
          simp only at this
          omega
        obtain ⟨p1, p2, p3⟩ := ih alloc (d + 1) hndrest
          (fun gj hgj => hmem gj (List.mem_cons_of_mem _ hgj))
          (fun gj hgj => hle gj (List.mem_cons_of_mem _ hgj))
        refine ⟨p1, ?_, ?_⟩
        · intro gj hgj
          rcases List.mem_cons.1 hgj with h' | h'
          · rw [h']
            simp only
            rw [p3 g hgrest, ha]
          · exact p2 gj h'
        · intro g' hg'
          simp only [List.map_cons, List.mem_cons, not_or] at hg'
          exact p3 g' hg'.2
      · rename_i hav
        set a := alookup alloc g with ha
        set add := min (d + 1) (items.length - a) with hadd
        have havle : add ≤ items.length - a := Nat.min_le_right _ _
        have hself : alookup (aupdate alloc g (a + add)) g = a + add :=
          alookup_aupdate_self g (a + add) alloc hg
        have hstep : ∀ gj ∈ rest,
            alookup (aupdate alloc g (a + add)) gj.1 = alookup alloc gj.1 :=
          fun gj hgj => alookup_aupdate_ne g gj.1 (a + add)
            (fun he => hnerest gj hgj he.symm) alloc
        obtain ⟨p1, p2, p3⟩ := ih (aupdate alloc g (a + add)) (d + 1 - add) hndrest
          (fun gj hgj => by
            rw [aupdate_keys]
            exact hmem gj (List.mem_cons_of_mem _ hgj))
          (fun gj hgj => by
            rw [hstep gj hgj]
            exact hle gj (List.mem_cons_of_mem _ hgj))
        have hale : a ≤ items.length := hle (g, items) (List.mem_cons_self _ _)
        refine ⟨?_, ?_, ?_⟩
        · intro g'
          by_cases he : g' = g
          · subst he
            calc alookup alloc g' ≤ a + add := by omega
              _ = alookup (aupdate alloc g' (a + add)) g' := hself.symm
              _ ≤ _ := p1 g'
          · calc alookup alloc g'
                = alookup (aupdate alloc g (a + add)) g' :=
                  (alookup_aupdate_ne g g' (a + add) (fun h' => he h'.symm) alloc).symm
              _ ≤ _ := p1 g'
        · intro gj hgj
          rcases List.mem_cons.1 hgj with h' | h'
          · rw [h']
            simp only
            rw [p3 g hgrest, hself]
            omega
          · exact p2 gj h'
        · intro g' hg'
          simp only [List.map_cons, List.mem_cons, not_or] at hg'
          rw [p3 g' hg'.2]
          exact alookup_aupdate_ne g g' (a + add) (fun h' => hg'.1 h'.symm) alloc

/-! ## Overflow-pass lemmas -/

lemma trimOverflow_keys :
    ∀ (order : List String) (alloc : List (String × Nat)) (diff : Nat),
      (trimOverflow alloc order diff).map Prod.fst = alloc.map Prod.fst := by
  intro order
  induction order with
  | nil => intro alloc diff; cases diff <;> rfl
  | cons g rest ih =>
    intro alloc diff
    cases diff with
    | zero => rfl
    | succ d =>
      show (trimOverflow alloc (g :: rest) (d + 1)).map Prod.fst = _
      unfold trimOverflow
      simp only []
      rw [ih, aupdate_keys]

lemma trimOverflow_sum :
    ∀ (order : List String) (alloc : List (String × Nat)) (diff : Nat),
      order.Nodup →
      (∀ g ∈ order, g ∈ alloc.map Prod.fst) →
      sumAlloc (trimOverflow alloc order diff) +
        min diff ((order.map fun g => alookup alloc g - 1).sum) = sumAlloc alloc := by
  intro order
  induction order with
  | nil =>
    intro alloc diff _ _
    cases diff <;> simp [trimOverflow]
  | cons g rest ih =>
    intro alloc diff hnd hmem
    cases diff with
    | zero => simp [trimOverflow]
    | succ d =>
      have hg : g ∈ alloc.map Prod.fst := hmem g (List.mem_cons_self _ _)
      have hgrest : g ∉ rest := (List.nodup_cons.1 hnd).1
      have hndrest : rest.Nodup := (List.nodup_cons.1 hnd).2
      show sumAlloc (trimOverflow alloc (g :: rest) (d + 1)) + _ = _
      unfold trimOverflow
      simp only [List.map_cons, List.sum_cons]
      set a := alookup alloc g with ha
      set reduce := min (d + 1) (a - 1) with hreduce
      have hupd : sumAlloc (aupdate alloc g (a - reduce)) + a =
          sumAlloc alloc + (a - reduce) :=
        sumAlloc_aupdate g (a - reduce) alloc hg
      have hstep : ∀ g' ∈ rest,
          alookup (aupdate alloc g (a - reduce)) g' = alookup alloc g' :=
        fun g' hg' => alookup_aupdate_ne g g' (a - reduce)
          (fun he => hgrest (he ▸ hg')) alloc
      have hcong :
          (rest.map fun g' => alookup (aupdate alloc g (a - reduce)) g' - 1) =
            rest.map fun g' => alookup alloc g' - 1 := by
        apply List.map_congr_left
        intro g' hg'
        rw [hstep g' hg']
      have hih := ih (aupdate alloc g (a - reduce)) (d + 1 - reduce) hndrest
        (fun g' hg' => by
          rw [aupdate_keys]
          exact hmem g' (List.mem_cons_of_mem _ hg'))
      rw [hcong] at hih
      omega

lemma trimOverflow_bounds :
    ∀ (order : List String) (alloc : List (String × Nat)) (diff : Nat)
      (g' : String),
      alookup (trimOverflow alloc order diff) g' ≤ alookup alloc g' ∧
      (1 ≤ alookup alloc g' →
        1 ≤ alookup (trimOverflow alloc order diff) g') := by
  intro order
  induction order with
  | nil =>
    intro alloc diff g'
    cases diff <;> exact ⟨le_refl _, fun h => h⟩
  | cons g rest ih =>
    intro alloc diff g'
    cases diff with
    | zero => exact ⟨le_refl _, fun h => h⟩
    | succ d =>
      show alookup (trimOverflow alloc (g :: rest) (d + 1)) g' ≤ _ ∧ _
      unfold trimOverflow
      simp only []
      set a := alookup alloc g with ha
      set reduce := min (d + 1) (a - 1) with hreduce
      have hred : reduce ≤ a - 1 := Nat.min_le_right _ _
      have hmono : alookup (aupdate alloc g (a - reduce)) g' ≤ alookup alloc g' := by
        by_cases he : g' = g
        · subst he
          by_cases hk : g' ∈ alloc.map Prod.fst
          · rw [alookup_aupdate_self g' (a - reduce) alloc hk]
            omega
          · rw [aupdate_not_mem g' (a - reduce) alloc hk]
        · rw [alookup_aupdate_ne g g' (a - reduce) (fun h' => he h'.symm) alloc]
      have hpos : 1 ≤ alookup alloc g' →
          1 ≤ alookup (aupdate alloc g (a - reduce)) g' := by
        intro h1
        by_cases he : g' = g
        · subst he
          by_cases hk : g' ∈ alloc.map Prod.fst
          · rw [alookup_aupdate_self g' (a - reduce) alloc hk]
            omega
          · rw [aupdate_not_mem g' (a - reduce) alloc hk]
            exact h1
        · rw [alookup_aupdate_ne g g' (a - reduce) (fun h' => he h'.symm) alloc]
          exact h1
      obtain ⟨q1, q2⟩ := ih (aupdate alloc g (a - reduce)) (d + 1 - reduce) g'
      exact ⟨le_trans q1 hmono, fun h1 => q2 (hpos h1)⟩

/-! ## Allocation-plan lemmas -/

lemma initialAlloc_keys (target : Nat) (groups : List (String × List Record)) :
    (initialAlloc target groups).map Prod.fst = groups.map Prod.fst := by
  unfold initialAlloc
  simp only []
  rw [List.map_map]
  rfl

lemma initialAlloc_length (target : Nat) (groups : List (String × List Record)) :
    (initialAlloc target groups).length = groups.length := by
  unfold initialAlloc
  simp only []
  rw [List.length_map]

lemma initialAlloc_alookup (target : Nat) (groups : List (String × List Record))
    (hnd : (groups.map Prod.fst).Nodup) :
    ∀ gi ∈ groups,
      alookup (initialAlloc target groups) gi.1 =
        min (max 1 (roundHalfEvenDiv (target * gi.2.length)
          ((groups.map fun gj => gj.2.length).sum))) gi.2.length := by
  intro gi hgi
  apply alookup_of_mem_nodup
  · unfold initialAlloc
    simp only []
    exact List.mem_map.2 ⟨gi, hgi, rfl⟩
  · rw [initialAlloc_keys]
    exact hnd

lemma initialAlloc_bounds (target : Nat) (groups : List (String × List Record))
    (hnd : (groups.map Prod.fst).Nodup) (hne : ∀ gi ∈ groups, gi.2 ≠ []) :
    ∀ gi ∈ groups,
      1 ≤ alookup (initialAlloc target groups) gi.1 ∧
      alookup (initialAlloc target groups) gi.1 ≤ gi.2.length := by
  intro gi hgi
  rw [initialAlloc_alookup target groups hnd gi hgi]
  have hpos : 1 ≤ gi.2.length := List.length_pos.2 (hne gi hgi)
  omega

lemma initialAlloc_pointwise (target : Nat) (groups : List (String × List Record))
    (hne : ∀ gi ∈ groups, gi.2 ≠ []) :
    ∀ p ∈ initialAlloc target groups, 1 ≤ p.2 := by
  intro p hp
  unfold initialAlloc at hp
  simp only [] at hp
  rcases List.mem_map.1 hp with ⟨gi, hgi, rfl⟩
  have hpos : 1 ≤ gi.2.length := List.length_pos.2 (hne gi hgi)
  simp only
  omega

lemma initialAlloc_current_lb (target : Nat) (groups : List (String × List Record))
    (hne : ∀ gi ∈ groups, gi.2 ≠ []) :
    groups.length ≤ sumAlloc (initialAlloc target groups) := by
  have := length_le_sumAlloc (initialAlloc target groups)
    (initialAlloc_pointwise target groups hne)
  rw [initialAlloc_length] at this
  exact this

lemma computeAllocations_keys (target : Nat)
    (groups : List (String × List Record)) :
    (computeAllocations target groups).map Prod.fst = groups.map Prod.fst := by
  unfold computeAllocations
  simp only []
  split
  · rw [addShortfall_keys, initialAlloc_keys]
  · split
    · rw [trimOverflow_keys, initialAlloc_keys]
    · rw [initialAlloc_keys]

lemma computeAllocations_spec (target : Nat)
    (groups : List (String × List Record))
    (hnd : (groups.map Prod.fst).Nodup)
    (hne : ∀ gi ∈ groups, gi.2 ≠ [])
    (htotal : target < ((groups.map fun gi => gi.2.length).sum)) :
    sumAlloc (computeAllocations target groups) = max target groups.length ∧
    ∀ gi ∈ groups,
      1 ≤ alookup (computeAllocations target groups) gi.1 ∧
      alookup (computeAllocations target groups) gi.1 ≤ gi.2.length := by
  have hkeys0 := initialAlloc_keys target groups
  have hbounds0 := initialAlloc_bounds target groups hnd hne
  have hlb := initialAlloc_current_lb target groups hne
  have hsum_alookup :
      (groups.map fun gi => alookup (initialAlloc target groups) gi.1).sum =
        sumAlloc (initialAlloc target groups) :=
    sum_alookup_eq_sumAlloc groups (initialAlloc target groups) hkeys0 hnd
  have hheadroom :
      (groups.map fun gi =>
          gi.2.length - alookup (initialAlloc target groups) gi.1).sum +
        sumAlloc (initialAlloc target groups) =
        (groups.map fun gi => gi.2.length).sum := by
    have := sum_map_sub (fun gi : String × List Record => gi.2.length)
      (fun gi => alookup (initialAlloc target groups) gi.1) groups
      (fun gi hgi => (hbounds0 gi hgi).2)
    rw [hsum_alookup] at this
    exact this
  unfold computeAllocations
  simp only []
  split
  · -- shortfall branch
    rename_i hlt
    set alloc0 := initialAlloc target groups with halloc0
    set ordered := List.insertionSort (shortfallRel alloc0) groups with hordered
    have hperm : ordered ~ groups := List.perm_insertionSort _ _
    have hpermk : ordered.map Prod.fst ~ groups.map Prod.fst := hperm.map _
    have hndo : (ordered.map Prod.fst).Nodup := hpermk.nodup_iff.2 hnd
    have hmemo : ∀ gi ∈ ordered, (gi : String × List Record).1 ∈ alloc0.map Prod.fst := by
      intro gi hgi
      rw [hkeys0]
      exact List.mem_map.2 ⟨gi, hperm.mem_iff.1 hgi, rfl⟩
    have hleo : ∀ gi ∈ ordered, alookup alloc0 gi.1 ≤ gi.2.length :=
      fun gi hgi => (hbounds0 gi (hperm.mem_iff.1 hgi)).2
    have hsum_perm :
        (ordered.map fun gi => gi.2.length - alookup alloc0 gi.1).sum =
          (groups.map fun gi => gi.2.length - alookup alloc0 gi.1).sum :=
      (hperm.map _).sum_eq
    have hdiff : target - sumAlloc alloc0 ≤
        (ordered.map fun gi => gi.2.length - alookup alloc0 gi.1).sum := by
      rw [hsum_perm]
      omega
    have hsum := addShortfall_sum ordered alloc0 (target - sumAlloc alloc0)
      hndo hmemo hleo hdiff
    obtain ⟨p1, p2, _⟩ := addShortfall_bounds ordered alloc0
      (target - sumAlloc alloc0) hndo hmemo hleo
    constructor
    · rw [hsum]
      omega
    · intro gi hgi
      refine ⟨le_trans (hbounds0 gi hgi).1 (p1 gi.1), ?_⟩
      exact p2 gi (hperm.mem_iff.2 hgi)
  · split
    · -- overflow branch
      rename_i hnlt hgt
      set alloc0 := initialAlloc target groups with halloc0
      set order := (List.insertionSort trimRel alloc0).map Prod.fst with horder
      have hpermp : List.insertionSort trimRel alloc0 ~ alloc0 :=
        List.perm_insertionSort _ _
      have hpermk : order ~ alloc0.map Prod.fst := hpermp.map _
      have hnda : (alloc0.map Prod.fst).Nodup := by
        rw [hkeys0]; exact hnd
      have hndo : order.Nodup := hpermk.nodup_iff.2 hnda
      have hmemo : ∀ g ∈ order, g ∈ alloc0.map Prod.fst :=
        fun g hg => hpermk.mem_iff.1 hg
      have hcap :
          (order.map fun g => alookup alloc0 g - 1).sum =
            sumAlloc alloc0 - alloc0.length := by
        have h1 : (order.map fun g => alookup alloc0 g - 1).sum =
            ((alloc0.map Prod.fst).map fun g => alookup alloc0 g - 1).sum :=
          (hpermk.map _).sum_eq
        have h2 : ((alloc0.map Prod.fst).map fun g => alookup alloc0 g - 1) =
            alloc0.map fun p => p.2 - 1 := by
          rw [List.map_map]
          apply List.map_congr_left
          intro p hp
          simp only [Function.comp]
          rw [alookup_of_mem_nodup alloc0 p.1 p.2 hp hnda]
        have h3 := sum_sub_one alloc0 (initialAlloc_pointwise target groups hne)
        rw [h1, h2]
        omega
      have hsum := trimOverflow_sum order alloc0 (sumAlloc alloc0 - target)
        hndo hmemo
      rw [hcap] at hsum
      have hlen : alloc0.length = groups.length := initialAlloc_length target groups
      constructor
      · have h1 : groups.length ≤ sumAlloc alloc0 := hlb
        have h2 : target < sumAlloc alloc0 := hgt
        omega
      · intro gi hgi
        obtain ⟨q1, q2⟩ := trimOverflow_bounds order alloc0
          (sumAlloc alloc0 - target) gi.1
        exact ⟨q2 (hbounds0 gi hgi).1, le_trans q1 (hbounds0 gi hgi).2⟩
    · -- already exact
      rename_i hnlt hngt
      constructor
      · omega
      · exact hbounds0

/-! ## C1: allocation sum and bounds -/

/-- C1 counterexample: a bucket of three records in three distinct genres
with target 2 satisfies `len(bucket) > target`, yet after allocation and
reconciliation the allocations sum to 3 (every genre is floored at 1 and the
overflow pass can never reduce an allocation below 1), not
`min(target, bucket size) = 2`. -/
theorem C1_counterexample :
    2 < bucketThreeGenres.length ∧
    sumAlloc (computeAllocations 2 (groupByGenre bucketThreeGenres)) ≠
      min 2 bucketThreeGenres.length := by decide

/-- C1 amended: for every bucket with `len(bucket) > target`, the sum of the
reconciled per-genre allocations equals `max(target, number of genres)` - in
particular it equals the target exactly when the bucket has at most `target`
distinct genres - and each genre's allocation is between 1 and that genre's
available count. -/
theorem C1_amended_allocation :
    ∀ (bucket : List Record) (target : Nat), target < bucket.length →
      sumAlloc (computeAllocations target (groupByGenre bucket)) =
        max target (groupByGenre bucket).length ∧
      ∀ gi ∈ groupByGenre bucket,
        1 ≤ alookup (computeAllocations target (groupByGenre bucket)) gi.1 ∧
        alookup (computeAllocations target (groupByGenre bucket)) gi.1 ≤
          gi.2.length := by
  intro bucket target h
  apply computeAllocations_spec
  · exact groupByGenre_nodup_keys bucket
  · exact groupByGenre_nonempty bucket
  · rw [groupByGenre_sum_lengths]
    exact h

/-- C1 witness: the amended statement evaluated on the three-genre bucket. -/
theorem C1_amended_allocation_witness :
    sumAlloc (computeAllocations 2 (groupByGenre bucketThreeGenres)) =
      max 2 (groupByGenre bucketThreeGenres).length ∧
    ∀ gi ∈ groupByGenre bucketThreeGenres,
      1 ≤ alookup (computeAllocations 2 (groupByGenre bucketThreeGenres)) gi.1 ∧
      alookup (computeAllocations 2 (groupByGenre bucketThreeGenres)) gi.1 ≤
        gi.2.length :=
  C1_amended_allocation bucketThreeGenres 2 (by decide)

/-! ## C6: shortfall distribution, one unit at a time -/

lemma aupdate_alookup_self :
    ∀ (l : List (String × Nat)) (g : String),
      aupdate l g (alookup l g) = l := by
  intro l
  induction l with
  | nil => intro g; rfl
  | cons kw rest ih =>
    obtain ⟨k, w⟩ := kw
    intro g
    rw [alookup_cons]
    unfold aupdate
    by_cases h : k = g
    · rw [if_pos h, if_pos h]
    · rw [if_neg h, if_neg h, ih]

lemma aupdate_cons (k : String) (w : Nat) (rest : List (String × Nat))
    (g : String) (v : Nat) :
    aupdate ((k, w) :: rest) g v =
      if k = g then (k, v) :: rest else (k, w) :: aupdate rest g v := rfl

lemma aupdate_aupdate :
    ∀ (l : List (String × Nat)) (g : String) (x y : Nat),
      aupdate (aupdate l g x) g y = aupdate l g y := by
  intro l
  induction l with
  | nil => intro g x y; rfl
  | cons kw rest ih =>
    obtain ⟨k, w⟩ := kw
    intro g x y
    by_cases h : k = g
    · simp only [aupdate_cons, if_pos h]
    · simp only [aupdate_cons, if_neg h, ih]

lemma specUnitDistribute_head :
    ∀ (d : Nat) (alloc : List (String × Nat)) (g : String)
      (items : List Record) (rest : List (String × List Record)),
      g ∈ alloc.map Prod.fst →
      alookup alloc g ≤ items.length →
      specUnitDistribute alloc ((g, items) :: rest) d =
        specUnitDistribute
          (aupdate alloc g
            (alookup alloc g + min d (items.length - alookup alloc g)))
          rest (d - min d (items.length - alookup alloc g)) := by
  intro d
  induction d with
  | zero =>
    intro alloc g items rest _ _
    simp only [Nat.min_zero, Nat.zero_min, Nat.add_zero, Nat.zero_sub]
    rw [aupdate_alookup_self]
    simp [specUnitDistribute]
  | succ d ih =>
    intro alloc g items rest hmem hle
    by_cases hlt : alookup alloc g < items.length
    · rw [show specUnitDistribute alloc ((g, items) :: rest) (d + 1) =
          specUnitDistribute (aupdate alloc g (alookup alloc g + 1))
            ((g, items) :: rest) d by
        simp [specUnitDistribute, hlt]]
      rw [ih (aupdate alloc g (alookup alloc g + 1)) g items rest
        (by rw [aupdate_keys]; exact hmem)
        (by rw [alookup_aupdate_self g _ alloc hmem]; omega)]
      rw [alookup_aupdate_self g _ alloc hmem, aupdate_aupdate]
      have h1 : alookup alloc g + 1 +
          min d (items.length - (alookup alloc g + 1)) =
          alookup alloc g + min (d + 1) (items.length - alookup alloc g) := by
        omega
      have h2 : d - min d (items.length - (alookup alloc g + 1)) =
          d + 1 - min (d + 1) (items.length - alookup alloc g) := by
        omega
      rw [h1, h2]
    · have heq : min (d + 1) (items.length - alookup alloc g) = 0 := by omega
      rw [heq]
      simp only [Nat.add_zero, Nat.sub_zero]
      rw [aupdate_alookup_self]
      simp [specUnitDistribute, hlt]

lemma addShortfall_eq_specUnitDistribute :
    ∀ (ordered : List (String × List Record)) (alloc : List (String × Nat))
      (diff : Nat),
      (ordered.map Prod.fst).Nodup →
      (∀ gi ∈ ordered, gi.1 ∈ alloc.map Prod.fst) →
      (∀ gi ∈ ordered, alookup alloc gi.1 ≤ gi.2.length) →
      addShortfall alloc ordered diff = specUnitDistribute alloc ordered diff := by
  intro ordered
  induction ordered with
  | nil =>
    intro alloc diff _ _ _
    cases diff <;> simp [addShortfall, specUnitDistribute]
  | cons gi rest ih =>
    intro alloc diff hnd hmem hle
    obtain ⟨g, items⟩ := gi
    cases diff with
    | zero => simp [addShortfall, specUnitDistribute]
    | succ d =>
      have hg : g ∈ alloc.map Prod.fst := hmem (g, items) (List.mem_cons_self _ _)
      have hgl : alookup alloc g ≤ items.length :=
        hle (g, items) (List.mem_cons_self _ _)
      have hgrest : g ∉ rest.map Prod.fst := by
        simp only [List.map_cons, List.nodup_cons] at hnd
        exact hnd.1
      have hndrest : (rest.map Prod.fst).Nodup := by
        simp only [List.map_cons, List.nodup_cons] at hnd
        exact hnd.2
      have hnerest : ∀ gj ∈ rest, (gj : String × List Record).1 ≠ g := by
        intro gj hgj he
        exact hgrest (List.mem_map.2 ⟨gj, hgj, he⟩)
      rw [specUnitDistribute_head (d + 1) alloc g items rest hg hgl]
      show addShortfall alloc ((g, items) :: rest) (d + 1) = _
      unfold addShortfall
      simp only []
      split
      · rename_i hav
        have heq : min (d + 1) (items.length - alookup alloc g) = 0 := by omega
        rw [heq]
        simp only [Nat.add_zero, Nat.sub_zero]
        rw [aupdate_alookup_self]
        exact ih alloc (d + 1) hndrest
          (fun gj hgj => hmem gj (List.mem_cons_of_mem _ hgj))
          (fun gj hgj => hle gj (List.mem_cons_of_mem _ hgj))
      · rename_i hav
        apply ih
        · exact hndrest
        · intro gj hgj
          rw [aupdate_keys]
          exact hmem gj (List.mem_cons_of_mem _ hgj)
        · intro gj hgj
          rw [alookup_aupdate_ne g gj.1 _ (fun he => hnerest gj hgj he.symm) alloc]
          exact hle gj (List.mem_cons_of_mem _ hgj)

lemma pairGE_total (a b : Nat × Nat) : pairGE a b ∨ pairGE b a := by
  unfold pairGE
  omega

lemma pairGE_trans (a b c : Nat × Nat) :
    pairGE a b → pairGE b c → pairGE a c := by
  unfold pairGE
  omega

/-- C6: when the initial plan falls short of the target, the reconciliation
walks the genres sorted descending by (available headroom, group size) - the
order is a permutation of the genre groups, pairwise descending in that key -
and its block-wise updates produce exactly the allocation obtained by
handing out the shortfall one unit at a time in that order
(`specUnitDistribute`, the spec's wording); no genre's allocation ever
exceeds that genre's available size. -/
theorem C6_shortfall_distribution :
    ∀ (bucket : List Record) (target : Nat),
      target < bucket.length →
      sumAlloc (initialAlloc target (groupByGenre bucket)) < target →
      (computeAllocations target (groupByGenre bucket) =
        specUnitDistribute (initialAlloc target (groupByGenre bucket))
          (List.insertionSort
            (shortfallRel (initialAlloc target (groupByGenre bucket)))
            (groupByGenre bucket))
          (target - sumAlloc (initialAlloc target (groupByGenre bucket)))) ∧
      (List.insertionSort
          (shortfallRel (initialAlloc target (groupByGenre bucket)))
          (groupByGenre bucket)) ~ groupByGenre bucket ∧
      List.Pairwise (shortfallRel (initialAlloc target (groupByGenre bucket)))
        (List.insertionSort
          (shortfallRel (initialAlloc target (groupByGenre bucket)))
          (groupByGenre bucket)) ∧
      ∀ gi ∈ groupByGenre bucket,
        alookup (computeAllocations target (groupByGenre bucket)) gi.1 ≤
          gi.2.length := by
  intro bucket target hlen hshort
  set groups := groupByGenre bucket with hgroups
  set alloc0 := initialAlloc target groups with halloc0
  have hnd : (groups.map Prod.fst).Nodup := groupByGenre_nodup_keys bucket
  have hne : ∀ gi ∈ groups, gi.2 ≠ [] := groupByGenre_nonempty bucket
  have hkeys0 := initialAlloc_keys target groups
  have hperm : List.insertionSort (shortfallRel alloc0) groups ~ groups :=
    List.perm_insertionSort _ _
  have hndo : ((List.insertionSort (shortfallRel alloc0) groups).map
      Prod.fst).Nodup := (hperm.map _).nodup_iff.2 hnd
  have hmemo : ∀ gi ∈ List.insertionSort (shortfallRel alloc0) groups,
      (gi : String × List Record).1 ∈ alloc0.map Prod.fst := by
    intro gi hgi
    rw [hkeys0]
    exact List.mem_map.2 ⟨gi, hperm.mem_iff.1 hgi, rfl⟩
  have hleo : ∀ gi ∈ List.insertionSort (shortfallRel alloc0) groups,
      alookup alloc0 gi.1 ≤ gi.2.length :=
    fun gi hgi =>
      (initialAlloc_bounds target groups hnd hne gi (hperm.mem_iff.1 hgi)).2
  have hEq : computeAllocations target groups =
      addShortfall alloc0 (List.insertionSort (shortfallRel alloc0) groups)
        (target - sumAlloc alloc0) := by
    unfold computeAllocations
    simp only []
    rw [if_pos hshort]
  refine ⟨?_, hperm, ?_, ?_⟩
  · rw [hEq]
    exact addShortfall_eq_specUnitDistribute _ alloc0 _ hndo hmemo hleo
  · haveI : IsTotal (String × List Record) (shortfallRel alloc0) :=
      ⟨fun a b => pairGE_total _ _⟩
    haveI : IsTrans (String × List Record) (shortfallRel alloc0) :=
      ⟨fun a b c => pairGE_trans _ _ _⟩
    exact List.sorted_insertionSort _ _
  · have htotal : target < ((groups.map fun gi => gi.2.length).sum) := by
      rw [hgroups, groupByGenre_sum_lengths]
      exact hlen
    intro gi hgi
    exact ((computeAllocations_spec target groups hnd hne htotal).2 gi hgi).2

/-- C6 witness: the nine-record, three-genre bucket with target 4 (initial
allocation 1+1+1 = 3 is one short). -/
theorem C6_shortfall_distribution_witness :
    (computeAllocations 4 (groupByGenre bucketNine) =
      specUnitDistribute (initialAlloc 4 (groupByGenre bucketNine))
        (List.insertionSort
          (shortfallRel (initialAlloc 4 (groupByGenre bucketNine)))
          (groupByGenre bucketNine))
        (4 - sumAlloc (initialAlloc 4 (groupByGenre bucketNine)))) ∧
    (List.insertionSort
        (shortfallRel (initialAlloc 4 (groupByGenre bucketNine)))
        (groupByGenre bucketNine)) ~ groupByGenre bucketNine ∧
    List.Pairwise (shortfallRel (initialAlloc 4 (groupByGenre bucketNine)))
      (List.insertionSort
        (shortfallRel (initialAlloc 4 (groupByGenre bucketNine)))
        (groupByGenre bucketNine)) ∧
    ∀ gi ∈ groupByGenre bucketNine,
      alookup (computeAllocations 4 (groupByGenre bucketNine)) gi.1 ≤
        gi.2.length :=
  C6_shortfall_distribution bucketNine 4 (by decide) (by decide)

/-! ## Sampling lemmas -/

lemma get_cons_eraseIdx_perm :
    ∀ (l : List α) (i : Nat) (h : i < l.length),
      l.get ⟨i, h⟩ :: l.eraseIdx i ~ l := by
  intro l
  induction l with
  | nil => intro i h; simp at h
  | cons a as ih =>
    intro i h
    cases i with
    | zero => simp
    | succ i =>
      simp only [List.get_cons_succ, List.eraseIdx_cons_succ]
      have hi : i < as.length := by
        simp only [List.length_cons] at h
        omega
      calc as.get ⟨i, hi⟩ :: a :: as.eraseIdx i
          ~ a :: as.get ⟨i, hi⟩ :: as.eraseIdx i := List.Perm.swap _ _ _
        _ ~ a :: as := (ih i hi).cons a

lemma subperm_of_subperm_of_perm {l₁ l₂ l₃ : List α} (h : l₁ <+~ l₂)
    (hp : l₂ ~ l₃) : l₁ <+~ l₃ :=
  hp.subperm_left.1 h

lemma subperm_map (f : α → β) {l₁ l₂ : List α} (h : l₁ <+~ l₂) :
    l₁.map f <+~ l₂.map f := by
  obtain ⟨m, hm, hs⟩ := h
  exact ⟨m.map f, hm.map f, hs.map f⟩

lemma subperm_nodup {l₁ l₂ : List α} (h : l₁ <+~ l₂) (hnd : l₂.Nodup) :
    l₁.Nodup := by
  obtain ⟨m, hm, hs⟩ := h
  exact hm.nodup_iff.1 (List.Nodup.sublist hs hnd)

lemma subperm_append_both {a b c d : List α} (h1 : a <+~ c) (h2 : b <+~ d) :
    a ++ b <+~ c ++ d :=
  ((List.subperm_append_left a).2 h2).trans ((List.subperm_append_right d).2 h1)

lemma sampleAux_length :
    ∀ (k s : Nat) (l : List α), (sampleAux k s l).1.length = min k l.length := by
  intro k
  induction k with
  | zero => intro s l; simp [sampleAux]
  | succ k ih =>
    intro s l
    cases l with
    | nil => simp [sampleAux]
    | cons a as =>
      simp only [sampleAux]
      rcases hrec : sampleAux k (lcg s) ((a :: as).eraseIdx (lcg s % (a :: as).length))
        with ⟨picked, s''⟩
      simp only [hrec, List.length_cons]
      have := ih (lcg s) ((a :: as).eraseIdx (lcg s % (a :: as).length))
      rw [hrec] at this
      simp only at this
      have hmod : lcg s % (a :: as).length < (a :: as).length :=
        Nat.mod_lt _ (Nat.succ_pos _)
      rw [List.length_eraseIdx, if_pos hmod] at this
      simp only [List.length_cons] at this hmod
      omega

lemma sampleAux_subperm :
    ∀ (k s : Nat) (l : List α), (sampleAux k s l).1 <+~ l := by
  intro k
  induction k with
  | zero => intro s l; simp [sampleAux]
  | succ k ih =>
    intro s l
    cases l with
    | nil => simp [sampleAux]
    | cons a as =>
      simp only [sampleAux]
      rcases hrec : sampleAux k (lcg s) ((a :: as).eraseIdx (lcg s % (a :: as).length))
        with ⟨picked, s''⟩
      simp only [hrec]
      have hsub := ih (lcg s) ((a :: as).eraseIdx (lcg s % (a :: as).length))
      rw [hrec] at hsub
      simp only at hsub
      have hcons : (a :: as).get ⟨lcg s % (a :: as).length,
            Nat.mod_lt _ (Nat.succ_pos _)⟩ :: picked <+~
          (a :: as).get ⟨lcg s % (a :: as).length,
            Nat.mod_lt _ (Nat.succ_pos _)⟩ ::
            (a :: as).eraseIdx (lcg s % (a :: as).length) :=
        (List.subperm_cons _).2 hsub
      exact subperm_of_subperm_of_perm hcons (get_cons_eraseIdx_perm _ _ _)

lemma sample_length (s : Nat) (items : List α) (k : Nat) :
    (sample s items k).1.length = min k items.length :=
  sampleAux_length k s items

lemma sample_subperm (s : Nat) (items : List α) (k : Nat) :
    (sample s items k).1 <+~ items :=
  sampleAux_subperm k s items

/-! ## Drawing lemmas -/

lemma drawGroups_subperm (alloc : List (String × Nat)) :
    ∀ (groups : List (String × List Record)) (st : Nat),
      (drawGroups alloc st groups).1 <+~ (groups.map Prod.snd).flatten := by
  intro groups
  induction groups with
  | nil => intro st; simp [drawGroups]
  | cons gi rest ih =>
    intro st
    obtain ⟨g, items⟩ := gi
    show (drawGroups alloc st ((g, items) :: rest)).1 <+~ _
    unfold drawGroups
    simp only [List.map_cons, List.flatten_cons]
    split
    · have h := ih st
      have h2 : (rest.map Prod.snd).flatten <+~
          items ++ (rest.map Prod.snd).flatten := by
        have := subperm_append_both (List.nil_subperm (l := items))
          (List.Subperm.refl ((rest.map Prod.snd).flatten))
        simpa using this
      exact h.trans h2
    · rcases hd : drawGroups alloc st rest with ⟨more, st1⟩
      rcases hs : sample st items (alookup alloc g) with ⟨picked, stp⟩
      rcases hd2 : drawGroups alloc stp rest with ⟨more2, st2⟩
      simp only [hd, hs, hd2]
      split
      · have hmore : more <+~ (rest.map Prod.snd).flatten := by
          have := ih st
          rw [hd] at this
          exact this
        exact subperm_append_both (List.Subperm.refl items) hmore
      · have hpicked : picked <+~ items := by
          have := sample_subperm st items (alookup alloc g)
          rw [hs] at this
          exact this
        have hmore2 : more2 <+~ (rest.map Prod.snd).flatten := by
          have := ih stp
          rw [hd2] at this
          exact this
        exact subperm_append_both hpicked hmore2

lemma drawGroups_length (alloc : List (String × Nat)) :
    ∀ (groups : List (String × List Record)) (st : Nat),
      (∀ gi ∈ groups,
        1 ≤ alookup alloc gi.1 ∧ alookup alloc gi.1 ≤ gi.2.length) →
      (drawGroups alloc st groups).1.length =
        (groups.map fun gi => alookup alloc gi.1).sum := by
  intro groups
  induction groups with
  | nil => intro st _; simp [drawGroups]
  | cons gi rest ih =>
    intro st hb
    obtain ⟨g, items⟩ := gi
    obtain ⟨h1, h2⟩ := hb (g, items) (List.mem_cons_self _ _)
    simp only at h1 h2
    have hbrest : ∀ gi ∈ rest,
        1 ≤ alookup alloc gi.1 ∧ alookup alloc gi.1 ≤ gi.2.length :=
      fun gi hgi => hb gi (List.mem_cons_of_mem _ hgi)
    show (drawGroups alloc st ((g, items) :: rest)).1.length = _
    unfold drawGroups
    simp only [List.map_cons, List.sum_cons]
    split
    · rename_i hz
      omega
    · rcases hd : drawGroups alloc st rest with ⟨more, st1⟩
      rcases hs : sample st items (alookup alloc g) with ⟨picked, stp⟩
      rcases hd2 : drawGroups alloc stp rest with ⟨more2, st2⟩
      simp only [hd, hs, hd2]
      split
      · rename_i hge
        have hmore : more.length = (rest.map fun gi => alookup alloc gi.1).sum := by
          have := ih st hbrest
          rw [hd] at this
          exact this
        simp only [List.length_append]
        omega
      · rename_i hlt
        have hpicked : picked.length = alookup alloc g := by
          have := sample_length st items (alookup alloc g)
          rw [hs] at this
          simp only at this
          omega
        have hmore2 : more2.length = (rest.map fun gi => alookup alloc gi.1).sum := by
          have := ih stp hbrest
          rw [hd2] at this
          exact this
        simp only [List.length_append]
        omega

/-! ## Stratified-sample lemmas -/

lemma stratified_sample_subperm (st : Nat) (bucket : List Record)
    (target : Nat) :
    (stratified_sample st bucket target).1 <+~ bucket := by
  unfold stratified_sample
  split
  · exact List.Subperm.refl bucket
  · exact subperm_of_subperm_of_perm
      (drawGroups_subperm _ (groupByGenre bucket) st)
      (groupByGenre_flatten bucket)

lemma stratified_sample_length_ge (st : Nat) (bucket : List Record)
    (target : Nat) (h : target ≤ bucket.length) :
    target ≤ (stratified_sample st bucket target).1.length := by
  unfold stratified_sample
  split
  · exact h
  · rename_i hgt
    have hlen : target < bucket.length := by omega
    have hnd := groupByGenre_nodup_keys bucket
    have hne := groupByGenre_nonempty bucket
    have htotal : target <
        (((groupByGenre bucket).map fun gi => gi.2.length).sum) := by
      rw [groupByGenre_sum_lengths]
      exact hlen
    obtain ⟨hsum, hbounds⟩ :=
      computeAllocations_spec target (groupByGenre bucket) hnd hne htotal
    rw [drawGroups_length _ _ _ hbounds]
    rw [sum_alookup_eq_sumAlloc _ _
      (computeAllocations_keys target (groupByGenre bucket)) hnd]
    omega

/-! ## Selection-step lemmas -/

lemma bucketOf_mem {records : List Record} {d : Nat} {used : List String}
    {r : Record} (h : r ∈ bucketOf records d used) :
    r ∈ records ∧ r.decade = d ∧ r.track_id ∉ used := by
  unfold bucketOf at h
  rw [List.mem_filter] at h
  exact ⟨h.1, of_decide_eq_true h.2⟩

lemma bucketOf_ids_nodup {records : List Record} {d : Nat}
    {used : List String} (h : (records.map Record.track_id).Nodup) :
    ((bucketOf records d used).map Record.track_id).Nodup :=
  List.Nodup.sublist ((List.filter_sublist _).map _) h

lemma selectStep_facts (records : List Record) (sel : List Record)
    (used : List String) (st : Nat) (d t : Nat) :
    ∃ picks : List Record,
      (selectStep records (sel, used, st) (d, t)).1 = sel ++ picks.take t ∧
      (selectStep records (sel, used, st) (d, t)).2.1 =
        used ++ picks.map Record.track_id ∧
      (∀ r ∈ picks, r ∈ records ∧ r.decade = d ∧ r.track_id ∉ used) ∧
      ((records.map Record.track_id).Nodup →
        (picks.map Record.track_id).Nodup) ∧
      (t ≤ (bucketOf records d used).length → t ≤ picks.length) := by
  unfold selectStep
  simp only []
  split
  · rename_i hbe
    refine ⟨[], by simp, by simp, by simp, fun _ => by simp, fun h => ?_⟩
    rw [hbe] at h
    simpa using h
  · rename_i hbne
    rcases hps : stratified_sample st (bucketOf records d used) t
      with ⟨picks0, st1⟩
    simp only [hps]
    have hbsub : picks0 <+~ bucketOf records d used := by
      have := stratified_sample_subperm st (bucketOf records d used) t
      rw [hps] at this
      exact this
    have hbmem : ∀ r ∈ picks0,
        r ∈ records ∧ r.decade = d ∧ r.track_id ∉ used :=
      fun r hr => bucketOf_mem (hbsub.subset hr)
    have hbnodup : (records.map Record.track_id).Nodup →
        (picks0.map Record.track_id).Nodup :=
      fun h => subperm_nodup (subperm_map Record.track_id hbsub)
        (bucketOf_ids_nodup h)
    have hblen : t ≤ (bucketOf records d used).length → t ≤ picks0.length := by
      intro h
      have := stratified_sample_length_ge st (bucketOf records d used) t h
      rw [hps] at this
      exact this
    by_cases hlt : picks0.length < t
    · simp only [if_pos hlt]
      by_cases hc :
          (bucketOf records d used).filter
            (fun r => decide (r.track_id ∉ picks0.map Record.track_id)) ≠ [] ∧
          0 < t - picks0.length
      · rcases hsx : sample st1
            ((bucketOf records d used).filter
              (fun r => decide (r.track_id ∉ picks0.map Record.track_id)))
            (min (t - picks0.length)
              ((bucketOf records d used).filter
                (fun r => decide (r.track_id ∉ picks0.map Record.track_id))).length)
          with ⟨extra, st2⟩
        simp only [if_pos hc, hsx]
        have hxsub : extra <+~
            (bucketOf records d used).filter
              (fun r => decide (r.track_id ∉ picks0.map Record.track_id)) := by
          have := sample_subperm st1
            ((bucketOf records d used).filter
              (fun r => decide (r.track_id ∉ picks0.map Record.track_id)))
            (min (t - picks0.length)
              ((bucketOf records d used).filter
                (fun r => decide (r.track_id ∉ picks0.map Record.track_id))).length)
          rw [hsx] at this
          exact this
        have hxmem : ∀ r ∈ extra,
            r ∈ bucketOf records d used ∧
              r.track_id ∉ picks0.map Record.track_id := by
          intro r hr
          have := hxsub.subset hr
          rw [List.mem_filter] at this
          exact ⟨this.1, of_decide_eq_true this.2⟩
        refine ⟨picks0 ++ extra, rfl, by rw [List.map_append], ?_, ?_, ?_⟩
        · intro r hr
          rcases List.mem_append.1 hr with h' | h'
          · exact hbmem r h'
          · exact bucketOf_mem (hxmem r h').1
        · intro hnd
          rw [List.map_append]
          refine List.Nodup.append (hbnodup hnd) ?_ ?_
          · exact subperm_nodup (subperm_map Record.track_id hxsub)
              (List.Nodup.sublist ((List.filter_sublist _).map _)
                (bucketOf_ids_nodup hnd))
          · intro a ha hax
            rcases List.mem_map.1 hax with ⟨r, hr, hrid⟩
            exact (hxmem r hr).2 (hrid ▸ ha)
        · intro h
          exact absurd (hblen h) (by omega)
      · simp only [if_neg hc]
        refine ⟨picks0, rfl, rfl, hbmem, hbnodup, fun h => ?_⟩
        exact absurd (hblen h) (by omega)
    · simp only [if_neg hlt]
      exact ⟨picks0, rfl, rfl, hbmem, hbnodup, hblen⟩

lemma selectFold_nodup :
    ∀ (targets : List (Nat × Nat)) (records : List Record)
      (sel : List Record) (used : List String) (st : Nat),
      (records.map Record.track_id).Nodup →
      (sel.map Record.track_id).Nodup →
      (∀ id ∈ sel.map Record.track_id, id ∈ used) →
      ((targets.foldl (selectStep records) (sel, used, st)).1.map
        Record.track_id).Nodup ∧
      (∀ id ∈ (targets.foldl (selectStep records) (sel, used, st)).1.map
          Record.track_id,
        id ∈ (targets.foldl (selectStep records) (sel, used, st)).2.1) := by
  intro targets
  induction targets with
  | nil =>
    intro records sel used st _ hsel hsub
    exact ⟨hsel, hsub⟩
  | cons dt rest ih =>
    intro records sel used st hrec hsel hsub
    obtain ⟨d, t⟩ := dt
    obtain ⟨picks, h1, h2, h3, h4, _⟩ := selectStep_facts records sel used st d t
    rcases hstep : selectStep records (sel, used, st) (d, t)
      with ⟨sel', used', st'⟩
    rw [hstep] at h1 h2
    simp only at h1 h2
    subst h1
    have hused' : used' = used ++ picks.map Record.track_id := h2
    have hpicksnd : (picks.map Record.track_id).Nodup := h4 hrec
    have htake : ((picks.take t).map Record.track_id).Nodup := by
      rw [List.map_take]
      exact List.Nodup.sublist (List.take_sublist _ _) hpicksnd
    have hsel' : ((sel ++ picks.take t).map Record.track_id).Nodup := by
      rw [List.map_append]
      refine List.Nodup.append hsel htake ?_
      intro a ha hat
      rcases List.mem_map.1 hat with ⟨r, hr, hrid⟩
      have hrp : r ∈ picks := (List.take_sublist t picks).subset hr
      exact (h3 r hrp).2.2 (hrid ▸ hsub a ha)
    have hsub' : ∀ id ∈ (sel ++ picks.take t).map Record.track_id,
        id ∈ used' := by
      intro a ha
      rw [List.map_append, List.mem_append] at ha
      rw [hused', List.mem_append]
      rcases ha with h' | h'
      · exact Or.inl (hsub a h')
      · right
        rcases List.mem_map.1 h' with ⟨r, hr, hrid⟩
        exact List.mem_map.2 ⟨r, (List.take_sublist t picks).subset hr, hrid⟩
    have := ih records (sel ++ picks.take t) used' st' hrec hsel' hsub'
    simpa [List.foldl_cons, hstep] using this

lemma load_nodup_aux :
    ∀ (rows : List Row) (acc : List Record × List String),
      ((acc.1.map Record.track_id).Nodup) →
      (∀ id ∈ acc.1.map Record.track_id, id ∈ acc.2) →
      (((rows.foldl loadStep acc).1.map Record.track_id).Nodup) := by
  intro rows
  induction rows with
  | nil => intro acc h _; exact h
  | cons row rest ih =>
    intro acc hnd hsub
    apply ih (loadStep acc row)
    · obtain ⟨records, seen⟩ := acc
      unfold loadStep
      dsimp only
      split
      · exact hnd
      · rename_i hseen
        split
        · exact hnd
        · split
          · exact hnd
          · split
            · exact hnd
            · split
              · exact hnd
              · rw [List.map_append]
                simp only [List.map_cons, List.map_nil]
                rw [List.nodup_append]
                refine ⟨hnd, List.nodup_singleton _, ?_⟩
                intro a ha hax
                simp only [Record.track_id, List.mem_singleton] at hax
                subst hax
                exact hseen (hsub _ ha)
    · obtain ⟨records, seen⟩ := acc
      unfold loadStep
      dsimp only
      split
      · exact hsub
      · split
        · exact hsub
        · split
          · exact hsub
          · split
            · exact hsub
            · split
              · exact hsub
              · rw [List.map_append]
                intro a ha
                rw [List.mem_append] at ha
                rw [List.mem_append]
                rcases ha with h' | h'
                · exact Or.inl (hsub a h')
                · simp only [List.map_cons, List.map_nil,
                    List.mem_singleton] at h'
                  subst h'
                  exact Or.inr (by simp [Record.track_id])

lemma load_nodup (rows : List Row) :
    ((load_spotify_records rows).map Record.track_id).Nodup := by
  unfold load_spotify_records
  exact load_nodup_aux rows ([], []) (by simp) (by simp)

/-! ## C5: strict partition -/

/-- C5: for any seed state, the records selected across all decades carry
pairwise distinct track identifiers - in particular no identifier appears in
the selection produced for more than one decade (every picked identifier is
marked used before the next decade's bucket is built, and buckets exclude
used identifiers). -/
theorem C5_strict_partition :
    ∀ (st : Nat) (rows : List Row),
      (((select_spotify_subset st (load_spotify_records rows)).1).map
        Record.track_id).Nodup := by
  intro st rows
  unfold select_spotify_subset
  rcases hf : DECADE_TARGETS.foldl (selectStep (load_spotify_records rows))
      ([], [], st) with ⟨selected, used, st'⟩
  simp only [hf]
  have := selectFold_nodup DECADE_TARGETS (load_spotify_records rows)
    [] [] st (load_nodup rows) (by simp) (by simp)
  rw [hf] at this
  exact this.1

/-! ## C4: per-decade quotas -/

lemma selectFold_filter_other :
    ∀ (targets : List (Nat × Nat)) (records : List Record)
      (sel : List Record) (used : List String) (st : Nat) (d : Nat),
      d ∉ targets.map Prod.fst →
      ((targets.foldl (selectStep records) (sel, used, st)).1.filter
        fun r => decide (r.decade = d)) =
      sel.filter fun r => decide (r.decade = d) := by
  intro targets
  induction targets with
  | nil => intro records sel used st d _; rfl
  | cons dt rest ih =>
    intro records sel used st d hd
    obtain ⟨d0, t0⟩ := dt
    simp only [List.map_cons, List.mem_cons, not_or] at hd
    obtain ⟨picks, h1, _, h3, _, _⟩ := selectStep_facts records sel used st d0 t0
    rcases hstep : selectStep records (sel, used, st) (d0, t0)
      with ⟨sel', used', st'⟩
    rw [hstep] at h1
    simp only at h1
    subst h1
    have := ih records (sel ++ picks.take t0) used' st' d hd.2
    simp only [List.foldl_cons, hstep]
    rw [this, List.filter_append]
    have hnone : ((picks.take t0).filter fun r => decide (r.decade = d)) = [] := by
      rw [List.filter_eq_nil_iff]
      intro r hr
      have hrp : r ∈ picks := (List.take_sublist t0 picks).subset hr
      have hdec := (h3 r hrp).2.1
      simp only [decide_eq_true_eq]
      rw [hdec]
      exact fun h' => hd.1 h'.symm
    rw [hnone, List.append_nil]

lemma selectFold_count :
    ∀ (targets : List (Nat × Nat)) (records : List Record)
      (sel : List Record) (used : List String) (st : Nat) (d t : Nat),
      (d, t) ∈ targets →
      (targets.map Prod.fst).Nodup →
      (records.map Record.track_id).Nodup →
      (∀ id ∈ used, ∀ r ∈ records, r.track_id = id →
        r.decade ∉ targets.map Prod.fst) →
      ∃ n,
        ((targets.foldl (selectStep records) (sel, used, st)).1.filter
          fun r => decide (r.decade = d)).length =
        (sel.filter fun r => decide (r.decade = d)).length + n ∧
        n ≤ t ∧
        (t ≤ ((records.filter fun r => decide (r.decade = d)).length) → n = t) := by
  intro targets
  induction targets with
  | nil => intro records sel used st d t h; simp at h
  | cons dt rest ih =>
    intro records sel used st d t hmem hnd hrec hinv
    obtain ⟨d0, t0⟩ := dt
    have hd0rest : d0 ∉ rest.map Prod.fst := by
      simp only [List.map_cons, List.nodup_cons] at hnd
      exact hnd.1
    have hndrest : (rest.map Prod.fst).Nodup := by
      simp only [List.map_cons, List.nodup_cons] at hnd
      exact hnd.2
    obtain ⟨picks, h1, h2, h3, _, h5⟩ := selectStep_facts records sel used st d0 t0
    rcases hstep : selectStep records (sel, used, st) (d0, t0)
      with ⟨sel', used', st'⟩
    rw [hstep] at h1 h2
    simp only at h1 h2
    subst h1
    subst h2
    have hbucket : bucketOf records d0 used =
        records.filter fun r => decide (r.decade = d0) := by
      unfold bucketOf
      apply List.filter_congr
      intro r hr
      by_cases hdec : r.decade = d0
      · have : r.track_id ∉ used := by
          intro hid
          have := hinv r.track_id hid r hr rfl
          simp only [List.map_cons, List.mem_cons, not_or] at this
          exact this.1 hdec
        simp [hdec, this]
      · simp [hdec]
    rcases List.mem_cons.1 hmem with hhead | htail
    · injection hhead with hd ht
      subst hd
      subst ht
      refine ⟨(picks.take t).length, ?_, ?_, ?_⟩
      · have hother := selectFold_filter_other rest records
          (sel ++ picks.take t) (used ++ picks.map Record.track_id) st' d hd0rest
        simp only [List.foldl_cons, hstep]
        rw [hother, List.filter_append]
        have hall : ((picks.take t).filter fun r => decide (r.decade = d)) =
            picks.take t := by
          rw [List.filter_eq_self]
          intro r hr
          have hrp : r ∈ picks := (List.take_sublist t picks).subset hr
          simp [(h3 r hrp).2.1]
        rw [hall, List.length_append]
      · rw [List.length_take]
        omega
      · intro hpool
        have hblen : t ≤ (bucketOf records d used).length := by
          rw [hbucket]
          exact hpool
        have := h5 hblen
        rw [List.length_take]
        omega
    · have hd0ne : d ≠ d0 := by
        intro he
        exact hd0rest (he ▸ List.mem_map.2 ⟨(d, t), htail, rfl⟩)
      have hinv' : ∀ id ∈ used ++ picks.map Record.track_id,
          ∀ r ∈ records, r.track_id = id →
            r.decade ∉ rest.map Prod.fst := by
        intro id hid r hr hrid
        rcases List.mem_append.1 hid with h' | h'
        · have := hinv id h' r hr hrid
          simp only [List.map_cons, List.mem_cons, not_or] at this
          exact this.2
        · rcases List.mem_map.1 h' with ⟨p, hp, hpid⟩
          have hpr : p ∈ records := (h3 p hp).1
          have : r = p := List.inj_on_of_nodup_map hrec hr hpr
            (by rw [hrid, hpid])
          rw [this, (h3 p hp).2.1]
          exact hd0rest
      obtain ⟨n, hn1, hn2, hn3⟩ := ih records (sel ++ picks.take t0)
        (used ++ picks.map Record.track_id) st' d t htail hndrest hrec hinv'
      refine ⟨n, ?_, hn2, hn3⟩
      simp only [List.foldl_cons, hstep]
      rw [hn1, List.filter_append]
      have hnone : ((picks.take t0).filter fun r => decide (r.decade = d)) = [] := by
        rw [List.filter_eq_nil_iff]
        intro r hr
        have hrp : r ∈ picks := (List.take_sublist t0 picks).subset hr
        have hdec := (h3 r hrp).2.1
        simp only [decide_eq_true_eq]
        rw [hdec]
        exact fun h' => hd0ne h'.symm
      rw [hnone, List.append_nil]

/-- C4: for every decade in the configured target set, the number of
selected records of that decade is at most its quota, and equals the quota
whenever the pool of loaded records for that decade is at least the quota
(track ids are assumed pairwise distinct, as loading guarantees). -/
theorem C4_decade_quota :
    ∀ (records : List Record) (st : Nat),
      (records.map Record.track_id).Nodup →
      ∀ d t, (d, t) ∈ DECADE_TARGETS →
        (((select_spotify_subset st records).1.filter
          fun r => decide (r.decade = d)).length ≤ t) ∧
        (t ≤ ((records.filter fun r => decide (r.decade = d)).length) →
          ((select_spotify_subset st records).1.filter
            fun r => decide (r.decade = d)).length = t) := by
  intro records st hrec d t hmem
  have hndt : (DECADE_TARGETS.map Prod.fst).Nodup := by decide
  obtain ⟨n, hn1, hn2, hn3⟩ := selectFold_count DECADE_TARGETS records [] [] st
    d t hmem hndt hrec (by simp)
  unfold select_spotify_subset
  rcases hf : DECADE_TARGETS.foldl (selectStep records) ([], [], st)
    with ⟨selected, used, st'⟩
  rw [hf] at hn1
  simp only [List.filter_nil, List.length_nil, Nat.zero_add] at hn1
  simp only [hf]
  constructor
  · rw [hn1]; exact hn2
  · intro hpool
    rw [hn1]
    exact hn3 hpool

/-- C4 witness: the empty record list (hypotheses hold; the pool condition
for decade 1960 is vacuous). -/
theorem C4_decade_quota_witness :
    (((select_spotify_subset 42 ([] : List Record)).1.filter
      fun r => decide (r.decade = 1960)).length ≤ 150) ∧
    (150 ≤ ((([] : List Record).filter
        fun r => decide (r.decade = 1960)).length) →
      ((select_spotify_subset 42 ([] : List Record)).1.filter
        fun r => decide (r.decade = 1960)).length = 150) :=
  C4_decade_quota [] 42 (by decide) 1960 150 (by decide)

/-! ## C3: dedup merge -/

lemma entryKey_spotify (rec : Record) :
    entryKey (spotify_row_to_entry rec) = recordKey rec := rfl

lemma mergeManual_fold_facts :
    ∀ (manual : List Entry) (kept0 : List Entry)
      (keys0 : List (List Char × List Char)) (skip0 : Nat),
      ∃ newKept : List Entry,
        (manual.foldl mergeStep (kept0, keys0, skip0)).1 = kept0 ++ newKept ∧
        (manual.foldl mergeStep (kept0, keys0, skip0)).2.1 =
          keys0 ++ newKept.map entryKey ∧
        (∀ e ∈ newKept, entryKey e ∉ keys0) ∧
        (newKept.map entryKey).Nodup ∧
        (manual.foldl mergeStep (kept0, keys0, skip0)).2.2 + newKept.length =
          skip0 + manual.length := by
  intro manual
  induction manual with
  | nil =>
    intro kept0 keys0 skip0
    exact ⟨[], by simp, by simp, by simp, by simp, by simp⟩
  | cons e rest ih =>
    intro kept0 keys0 skip0
    simp only [List.foldl_cons]
    by_cases hk : entryKey e ∈ keys0
    · rw [show mergeStep (kept0, keys0, skip0) e = (kept0, keys0, skip0 + 1) by
        unfold mergeStep
        rw [if_pos hk]]
      obtain ⟨nk, h1, h2, h3, h4, h5⟩ := ih kept0 keys0 (skip0 + 1)
      refine ⟨nk, h1, h2, h3, h4, ?_⟩
      simp only [List.length_cons]
      omega
    · rw [show mergeStep (kept0, keys0, skip0) e =
          (kept0 ++ [e], keys0 ++ [entryKey e], skip0) by
        unfold mergeStep
        rw [if_neg hk]]
      obtain ⟨nk, h1, h2, h3, h4, h5⟩ := ih (kept0 ++ [e])
        (keys0 ++ [entryKey e]) skip0
      refine ⟨e :: nk, ?_, ?_, ?_, ?_, ?_⟩
      · rw [h1, List.append_assoc]
        rfl
      · rw [h2, List.append_assoc]
        rfl
      · intro x hx
        rcases List.mem_cons.1 hx with h' | h'
        · subst h'
          exact hk
        · intro hxk
          exact h3 x h' (List.mem_append.2 (Or.inl hxk))
      · simp only [List.map_cons, List.nodup_cons]
        refine ⟨?_, h4⟩
        intro hc
        rcases List.mem_map.1 hc with ⟨x, hx, hxe⟩
        have := h3 x hx
        rw [hxe] at this
        exact this (List.mem_append.2 (Or.inr (List.mem_singleton.2 rfl)))
      · simp only [List.length_cons]
        omega

lemma backfill_keys (st : Nat) (keys : List (List Char × List Char))
    (records : List Record) (needed : Nat) :
    ∀ e ∈ (backfill st keys records needed).1, entryKey e ∉ keys := by
  intro e he
  unfold backfill at he
  simp only [] at he
  rcases hs : sample st
      (records.filter fun r => decide (recordKey r ∉ keys))
      ((records.filter fun r => decide (recordKey r ∉ keys)).length)
    with ⟨shuffled, st'⟩
  rw [hs] at he
  simp only [] at he
  rcases List.mem_map.1 he with ⟨r, hr, rfl⟩
  rw [entryKey_spotify]
  have hrs : r ∈ shuffled := (List.take_sublist needed shuffled).subset hr
  have hrr : r ∈ records.filter fun r => decide (recordKey r ∉ keys) := by
    have := sample_subperm st
      (records.filter fun r => decide (recordKey r ∉ keys))
      ((records.filter fun r => decide (recordKey r ∉ keys)).length)
    rw [hs] at this
    exact this.subset hrs
  rw [List.mem_filter] at hrr
  exact of_decide_eq_true hrr.2

lemma backfill_length (st : Nat) (keys : List (List Char × List Char))
    (records : List Record) (needed : Nat) :
    (backfill st keys records needed).1.length =
      min needed
        ((records.filter fun r => decide (recordKey r ∉ keys)).length) := by
  unfold backfill
  simp only []
  rcases hs : sample st
      (records.filter fun r => decide (recordKey r ∉ keys))
      ((records.filter fun r => decide (recordKey r ∉ keys)).length)
    with ⟨shuffled, st'⟩
  simp only [hs]
  have hl : shuffled.length =
      (records.filter fun r => decide (recordKey r ∉ keys)).length := by
    have := sample_length st
      (records.filter fun r => decide (recordKey r ∉ keys))
      ((records.filter fun r => decide (recordKey r ∉ keys)).length)
    rw [hs] at this
    simpa using this
  simp [List.length_map, List.length_take, hl]

set_option maxRecDepth 40000 in
/-- C3 counterexample: first, two raw rows with distinct track ids but the
same normalized (title, artist) key are both selected and enriched, so the
final catalog contains two entries sharing one dedup key - the primary
entries are never deduplicated against each other.  Second, on the 102-row
fixture the backfill pass itself appends two pool records sharing one key
in the same pass - the pass filters against the keys existing before it
started and never re-checks, so the second record is appended although its
key already exists by then. -/
theorem C3_counterexample :
    ¬ ((catalogSongs duplicateKeyRows []).map entryKey).Nodup ∧
    ¬ (((pipelineParts backfillDupRows []).2.2.2).map entryKey).Nodup := by
  exact ⟨by decide, by decide⟩

/-- C3 amended: the merged catalog can contain two entries sharing a
normalized (title, artist) key - distinct primary records may share a key,
and the backfill pass, which filters against the keys existing before it
begins and never re-checks, can append two pool records sharing a key in
the same pass (both exhibited by the counterexample).  What holds: curated
entries whose key collides with a primary (or an earlier curated) key are
dropped and counted - the kept curated entries have pairwise distinct keys,
none colliding with a primary key; every backfill entry's key is absent
from all keys present before the backfill; and backfill continues until the
global target is met or the pool is exhausted - it appends exactly
`min(needed, pool size)` entries when the catalog is short of 3000, and
nothing otherwise. -/
theorem C3_amended_dedup :
    ∀ (rows : List Row) (manual : List ManualRow),
      (∀ e ∈ (pipelineParts rows manual).2.1,
        entryKey e ∉ (pipelineParts rows manual).1.map entryKey) ∧
      ((pipelineParts rows manual).2.1.map entryKey).Nodup ∧
      ((pipelineParts rows manual).2.2.1 +
        (pipelineParts rows manual).2.1.length =
        (load_manual_french_songs manual).length) ∧
      (∀ e ∈ (pipelineParts rows manual).2.2.2,
        entryKey e ∉
          ((pipelineParts rows manual).1 ++
            (pipelineParts rows manual).2.1).map entryKey) ∧
      (((pipelineParts rows manual).1 ++
          (pipelineParts rows manual).2.1).length < 3000 →
        (pipelineParts rows manual).2.2.2.length =
          min (3000 - ((pipelineParts rows manual).1 ++
              (pipelineParts rows manual).2.1).length)
            (((load_spotify_records rows).filter fun r =>
              decide (recordKey r ∉
                ((pipelineParts rows manual).1 ++
                  (pipelineParts rows manual).2.1).map entryKey)).length)) ∧
      (¬ ((pipelineParts rows manual).1 ++
          (pipelineParts rows manual).2.1).length < 3000 →
        (pipelineParts rows manual).2.2.2 = []) := by
  intro rows manual
  rcases hsel : select_spotify_subset 42 (load_spotify_records rows)
    with ⟨selectedRecs, st1⟩
  obtain ⟨nk, h1, h2, h3, h4, h5⟩ :=
    mergeManual_fold_facts (load_manual_french_songs manual) []
      ((selectedRecs.map spotify_row_to_entry).map entryKey) 0
  rw [List.nil_append] at h1
  have hm1 : (mergeManual (load_manual_french_songs manual)
      ((selectedRecs.map spotify_row_to_entry).map entryKey)).1 = nk := h1
  have hm2 : (mergeManual (load_manual_french_songs manual)
      ((selectedRecs.map spotify_row_to_entry).map entryKey)).2.1 =
      ((selectedRecs.map spotify_row_to_entry).map entryKey) ++
        nk.map entryKey := h2
  have hm5 : (mergeManual (load_manual_french_songs manual)
      ((selectedRecs.map spotify_row_to_entry).map entryKey)).2.2 +
      nk.length = 0 + (load_manual_french_songs manual).length := h5
  rcases hmm0 : mergeManual (load_manual_french_songs manual)
      ((selectedRecs.map spotify_row_to_entry).map entryKey)
    with ⟨a, b, sk⟩
  rw [hmm0] at hm1 hm2 hm5
  simp only at hm1 hm2 hm5
  subst hm1
  subst hm2
  have hpp : pipelineParts rows manual =
      (selectedRecs.map spotify_row_to_entry, a, sk,
        if (selectedRecs.map spotify_row_to_entry ++ a).length < 3000 then
          (backfill st1
            (((selectedRecs.map spotify_row_to_entry).map entryKey) ++
              a.map entryKey)
            (load_spotify_records rows)
            (3000 - (selectedRecs.map spotify_row_to_entry ++ a).length)).1
        else []) := by
    simp only [pipelineParts, hsel, hmm0]
  rw [hpp]
  simp only
  refine ⟨h3, h4, ?_, ?_, ?_, ?_⟩
  · omega
  · intro e he
    rw [List.map_append]
    split at he
    · exact backfill_keys st1
        (((selectedRecs.map spotify_row_to_entry).map entryKey) ++
          a.map entryKey)
        (load_spotify_records rows)
        (3000 - (selectedRecs.map spotify_row_to_entry ++ a).length) e he
    · simp at he
  · intro hlt
    rw [if_pos hlt, backfill_length, List.map_append]
  · intro hge
    rw [if_neg hge]
